import Mathlib

/-!
Shallow embedding of the markdown table / inline-format parser of
`md2docx_hotpaste` (files `domains/spreadsheet/parser.py`,
`domains/spreadsheet/formatting.py`, and the duplicated copies in
`services/inserter/excel.py`), together with proofs settling the frozen
claims about the natural-language specification.

Strings are modelled as `List Char`.  Python `str.strip()` / regex `\s`
are modelled over the ASCII whitespace characters, which is faithful for
every character class the parser itself manipulates.
-/

/-- Whitespace predicate: Python `str.strip()` / regex `\s` (ASCII range). -/
def pyIsSpace (c : Char) : Bool :=
  c == ' ' || c == '\t' || c == '\n' || c == '\r' || c == '\x0b' || c == '\x0c'

/-- Drop leading whitespace, as in Python `lstrip()`. -/
def dropWs (l : List Char) : List Char := l.dropWhile pyIsSpace

/-- Drop trailing whitespace, as in Python `rstrip()`. -/
def dropRightWs (l : List Char) : List Char := (l.reverse.dropWhile pyIsSpace).reverse

/-- Python `str.strip()`. -/
def pyStrip (l : List Char) : List Char := dropRightWs (dropWs l)

/-- Python `str.split('\n')`: always returns one more part than there are
newline characters (so the empty string yields `[[]]`). -/
def splitOnNl : List Char → List (List Char)
  | [] => [[]]
  | c :: rest =>
      if c = '\n' then [] :: splitOnNl rest
      else
        match splitOnNl rest with
        | [] => [[c]]
        | h :: t => (c :: h) :: t

/-- Loop body of `_split_table_cells` (parser.py lines 17-37): scan the line
with a one-character lookback `prev`; `\|` keeps a literal pipe (replacing the
buffered backslash), an unescaped `|` flushes the stripped buffer as a cell. -/
def splitCellsGo : List Char → Option Char → List Char → List (List Char) → List (List Char)
  | [], _, current, cells =>
      if current ≠ [] ∨ cells ≠ [] then cells ++ [pyStrip current] else cells
  | c :: rest, prev, current, cells =>
      if c = '|' ∧ prev = some '\\' then
        splitCellsGo rest (some c) (current.dropLast ++ ['|']) cells
      else if c = '|' then
        splitCellsGo rest (some c) [] (cells ++ [pyStrip current])
      else
        splitCellsGo rest (some c) (current ++ [c]) cells

/-- `_split_table_cells` of parser.py. -/
def split_table_cells (line : List Char) : List (List Char) :=
  splitCellsGo line none [] []

/-- parser.py lines 83-84: drop a leading empty cell. -/
def dropLeadingEmpty : List (List Char) → List (List Char)
  | [] :: rest => rest
  | cs => cs

/-- parser.py lines 85-86: drop a trailing empty cell. -/
def dropTrailingEmpty (cs : List (List Char)) : List (List Char) :=
  if cs.getLast? = some [] then cs.dropLast else cs

/-- parser.py lines 83-86 combined. -/
def trimEdgeCells (cs : List (List Char)) : List (List Char) :=
  dropTrailingEmpty (dropLeadingEmpty cs)

/-- A separator-row character, regex class `[-:]`. -/
def isSepMark (c : Char) : Bool := c == '-' || c == ':'

/-- Matcher for the part `(\|\s*[-:]+\s*)*\|?\s*$` of the separator-row regex
(after at least one group has already been consumed).  Each `\s*` is consumed
greedily; this is deterministic because no alternative of the regex begins
with a whitespace character.  The fuel decreases at each group; every group
consumes at least the `|`, so `length + 1` fuel always suffices. -/
def sepTailMore : Nat → List Char → Bool
  | 0, _ => false
  | f + 1, l =>
      match dropWs l with
      | [] => true
      | c :: rest =>
          if c = '|' then
            match (dropWs rest).takeWhile isSepMark with
            | [] => (dropWs rest).isEmpty
            | _ :: _ => sepTailMore f ((dropWs rest).dropWhile isSepMark)
          else false

/-- Matcher for `\s*(\|\s*[-:]+\s*)+\|?\s*$`: the mandatory first group of
the `+`, then `sepTailMore`. -/
def sepTail1 (fuel : Nat) (l : List Char) : Bool :=
  match dropWs l with
  | [] => false
  | c :: rest =>
      if c = '|' then
        match (dropWs rest).takeWhile isSepMark with
        | [] => false
        | _ :: _ => sepTailMore fuel ((dropWs rest).dropWhile isSepMark)
      else false

/-- The regex prefix `\s*\|?\s*`: skip whitespace and one optional pipe
(consuming the pipe is forced whenever it is present, since every following
alternative starts with `[-:]`). -/
def afterOptPipe (l : List Char) : List Char :=
  match dropWs l with
  | [] => []
  | c :: t => if c = '|' then dropWs t else c :: t

/-- Matcher for the full separator-row regex of parser.py line 75,
`^\s*\|?\s*[-:]+\s*(\|\s*[-:]+\s*)+\|?\s*$`, given explicit fuel for the
repetition. -/
def sepCore (fuel : Nat) (l : List Char) : Bool :=
  match (afterOptPipe l).takeWhile isSepMark with
  | [] => false
  | _ :: _ => sepTail1 fuel ((afterOptPipe l).dropWhile isSepMark)

/-- `re.match` of the separator-row pattern against a line. -/
def sepMatch (l : List Char) : Bool := sepCore (l.length + 1) l

/-- parser.py line 67: a line qualifies as a table line. -/
def lineQualifies (l : List Char) : Bool :=
  (l.head? == some '|') || (l.getLast? == some '|') || l.contains '|'

/-- parser.py lines 92-95: the check performed after the scan loop. -/
def tableResult (sepFound : Bool) (acc : List (List (List Char))) :
    Option (List (List (List Char))) :=
  if sepFound = true ∧ acc ≠ [] then some acc else none

/-- The scan loop of `parse_markdown_table` (parser.py lines 59-89), with the
`separator_found` flag and the accumulated `table_data`.  A non-qualifying
line after the separator models the `break` (jumping to the final check). -/
def parseLoop : List (List Char) → Bool → List (List (List Char)) →
    Option (List (List (List Char)))
  | [], sepFound, acc => tableResult sepFound acc
  | line :: rest, sepFound, acc =>
      if (pyStrip line).isEmpty then parseLoop rest sepFound acc
      else if lineQualifies (pyStrip line) = false then
        if sepFound = true then tableResult sepFound acc else none
      else if sepMatch (pyStrip line) = true then parseLoop rest true acc
      else
        parseLoop rest sepFound
          (if (trimEdgeCells (split_table_cells (pyStrip line))).isEmpty then acc
           else acc ++ [trimEdgeCells (split_table_cells (pyStrip line))])

/-- `parse_markdown_table` of parser.py. -/
def parse_markdown_table (mdText : List Char) :
    Option (List (List (List Char))) :=
  if (splitOnNl (pyStrip mdText)).length < 2 then none
  else parseLoop (splitOnNl (pyStrip mdText)) false []

/-- A run of text with uniform style: the `TextSegment` class of
formatting.py (identical to the `TextSegment` class of excel.py, which we
therefore model with the same structure). -/
structure TextSegment where
  text : List Char
  bold : Bool
  italic : Bool
  strikethrough : Bool
  is_code : Bool
  hyperlink_url : Option (List Char)
deriving DecidableEq

/-- The backtick character (U+0060), written via its code point. -/
def btick : Char := Char.ofNat 96

/-- Python `text.find(c, i)` relative to a suffix: index of the first
occurrence of character `c`. -/
def findChar (c : Char) : List Char → Option Nat
  | [] => none
  | x :: rest => if x = c then some 0 else (findChar c rest).map (· + 1)

/-- Python `text.find(pat, i)` for a multi-character pattern, relative to a
suffix: index of the first position where `pat` occurs in full.  This also
models the explicit search loops of formatting.py lines 123-132 / 152-160,
whose bound `end < len(text) - 1` likewise requires the full two-character
window. -/
def findSub (pat : List Char) : List Char → Option Nat
  | [] => none
  | x :: rest =>
      if pat.isPrefixOf (x :: rest) then some 0 else (findSub pat rest).map (· + 1)

/-- The search loop of formatting.py lines 169-179 / 187-195: the first
position holding character `c` NOT followed by another `c`. -/
def findSingle (c : Char) : List Char → Option Nat
  | [] => none
  | x :: rest =>
      if x = c ∧ rest.head? ≠ some c then some 0
      else (findSingle c rest).map (· + 1)

/-- `flush_current` of formatting.py lines 72-78: a non-empty buffer becomes
one segment carrying the ambient style flags; an empty buffer produces
nothing. -/
def flushCur (cur : List Char) (b it st : Bool) : List TextSegment :=
  if cur.isEmpty then []
  else [{ text := cur, bold := b, italic := it, strikethrough := st,
          is_code := false, hyperlink_url := none }]

/-- The scan loop of `_parse_segments` (formatting.py lines 80-226) over the
remaining suffix of the text, with the ambient flags, the literal buffer
`cur` and the accumulated `acc`.  Recursive `_parse_segments` calls and loop
steps are both modelled as recursive calls; each is on a strictly shorter
suffix, so fuel `length + 1` always suffices (`none` = fuel ran out, proved
unreachable below).  Where Python falls through from a failed check to later
checks that cannot match the current character, the fall-through is collapsed
to the literal-character default; the `***`→`**` and `___`→`__` fall-throughs
(same character, containing condition) are kept by inlining the target
check's body. -/
def segsGo : Nat → List Char → Bool → Bool → Bool → List Char →
    List TextSegment → Option (List TextSegment)
  | 0, _, _, _, _, _, _ => none
  | _ + 1, [], b, it, st, cur, acc => some (acc ++ flushCur cur b it st)
  | f + 1, c :: rest, b, it, st, cur, acc =>
      -- escape: formatting.py lines 82-85
      if c = '\\' ∧ rest ≠ [] then
        segsGo f (rest.drop 1) b it st (cur ++ rest.take 1) acc
      -- inline code span: lines 88-96
      else if c = btick then
        match findChar btick rest with
        | some k =>
            segsGo f (rest.drop (k + 1)) b it st []
              (acc ++ flushCur cur b it st ++
                [{ text := rest.take k, bold := false, italic := false,
                   strikethrough := false, is_code := true, hyperlink_url := none }])
        | none => segsGo f rest b it st (cur ++ [c]) acc
      -- strikethrough: lines 99-107
      else if c = '~' ∧ rest.head? = some '~' ∧ st = false then
        match findSub ['~', '~'] (rest.drop 1) with
        | some j =>
            match segsGo f ((rest.drop 1).take j) b it true [] [] with
            | none => none
            | some inner =>
                segsGo f ((rest.drop 1).drop (j + 2)) b it st []
                  (acc ++ flushCur cur b it st ++ inner)
        | none => segsGo f rest b it st (cur ++ [c]) acc
      -- bold+italic ***...***: lines 110-118, falling through to ** on failure
      else if c = '*' ∧ rest.take 2 = ['*', '*'] ∧ b = false ∧ it = false then
        match findSub ['*', '*', '*'] (rest.drop 2) with
        | some j =>
            match segsGo f ((rest.drop 2).take j) true true st [] [] with
            | none => none
            | some inner =>
                segsGo f ((rest.drop 2).drop (j + 3)) b it st []
                  (acc ++ flushCur cur b it st ++ inner)
        | none =>
            match findSub ['*', '*'] (rest.drop 1) with
            | some j =>
                match segsGo f ((rest.drop 1).take j) true it st [] [] with
                | none => none
                | some inner =>
                    segsGo f ((rest.drop 1).drop (j + 2)) b it st []
                      (acc ++ flushCur cur b it st ++ inner)
            | none => segsGo f rest b it st (cur ++ [c]) acc
      -- bold **...**: lines 121-137
      else if c = '*' ∧ rest.head? = some '*' ∧ b = false then
        match findSub ['*', '*'] (rest.drop 1) with
        | some j =>
            match segsGo f ((rest.drop 1).take j) true it st [] [] with
            | none => none
            | some inner =>
                segsGo f ((rest.drop 1).drop (j + 2)) b it st []
                  (acc ++ flushCur cur b it st ++ inner)
        | none => segsGo f rest b it st (cur ++ [c]) acc
      -- bold+italic ___...___: lines 140-148, falling through to __ on failure
      else if c = '_' ∧ rest.take 2 = ['_', '_'] ∧ b = false ∧ it = false then
        match findSub ['_', '_', '_'] (rest.drop 2) with
        | some j =>
            match segsGo f ((rest.drop 2).take j) true true st [] [] with
            | none => none
            | some inner =>
                segsGo f ((rest.drop 2).drop (j + 3)) b it st []
                  (acc ++ flushCur cur b it st ++ inner)
        | none =>
            match findSub ['_', '_'] (rest.drop 1) with
            | some j =>
                match segsGo f ((rest.drop 1).take j) true it st [] [] with
                | none => none
                | some inner =>
                    segsGo f ((rest.drop 1).drop (j + 2)) b it st []
                      (acc ++ flushCur cur b it st ++ inner)
            | none => segsGo f rest b it st (cur ++ [c]) acc
      -- bold __...__: lines 150-165
      else if c = '_' ∧ rest.head? = some '_' ∧ b = false then
        match findSub ['_', '_'] (rest.drop 1) with
        | some j =>
            match segsGo f ((rest.drop 1).take j) true it st [] [] with
            | none => none
            | some inner =>
                segsGo f ((rest.drop 1).drop (j + 2)) b it st []
                  (acc ++ flushCur cur b it st ++ inner)
        | none => segsGo f rest b it st (cur ++ [c]) acc
      -- italic *...*: lines 168-184
      else if c = '*' ∧ rest.head? ≠ some '*' then
        match findSingle '*' rest with
        | some j =>
            match segsGo f (rest.take j) b true st [] [] with
            | none => none
            | some inner =>
                segsGo f (rest.drop (j + 1)) b it st []
                  (acc ++ flushCur cur b it st ++ inner)
        | none => segsGo f rest b it st (cur ++ [c]) acc
      -- italic _..._: lines 186-199
      else if c = '_' ∧ rest.head? ≠ some '_' then
        match findSingle '_' rest with
        | some j =>
            match segsGo f (rest.take j) b true st [] [] with
            | none => none
            | some inner =>
                segsGo f (rest.drop (j + 1)) b it st []
                  (acc ++ flushCur cur b it st ++ inner)
        | none => segsGo f rest b it st (cur ++ [c]) acc
      -- hyperlink [text](url): lines 203-219
      else if c = '[' then
        match findChar ']' rest with
        | some k =>
            if (rest.drop (k + 1)).head? = some '(' then
              match findChar ')' (rest.drop (k + 2)) with
              | some m =>
                  match segsGo f (rest.take k) b it st [] [] with
                  | none => none
                  | some inner =>
                      segsGo f (rest.drop (k + 3 + m)) b it st []
                        (acc ++ flushCur cur b it st ++
                          inner.map (fun sg =>
                            { sg with hyperlink_url := some ((rest.drop (k + 2)).take m) }))
              | none => segsGo f rest b it st (cur ++ [c]) acc
            else segsGo f rest b it st (cur ++ [c]) acc
        | none => segsGo f rest b it st (cur ++ [c]) acc
      -- plain character: lines 222-223
      else segsGo f rest b it st (cur ++ [c]) acc

/-- `_parse_segments` of formatting.py: the scan with enough fuel. -/
def parse_segments (t : List Char) (b it st : Bool) : List TextSegment :=
  (segsGo (t.length + 1) t b it st [] []).getD []

/-- ASCII lowercasing, as used by `str.lower()` and `re.IGNORECASE` on the
tag characters the parser matches. -/
def asciiLower (c : Char) : Char :=
  if 'A' ≤ c ∧ c ≤ 'Z' then Char.ofNat (c.toNat + 32) else c

/-- One match attempt of the regex `<br\s*/?>` (IGNORECASE) at the head of
the list; on success returns the remainder after the match. -/
def matchBr : List Char → Option (List Char)
  | '<' :: c1 :: c2 :: rest =>
      if asciiLower c1 = 'b' ∧ asciiLower c2 = 'r' then
        match (match dropWs rest with | '/' :: t => t | r => r) with
        | '>' :: t => some t
        | _ => none
      else none
  | _ => none

/-- `re.sub(r'<br\s*/?>', '\n', text, flags=re.IGNORECASE)` (formatting.py
line 34): leftmost non-overlapping matches replaced by a newline, scanning
resuming after each replacement.  Fuel `length + 1` always suffices. -/
def brSubF : Nat → List Char → List Char
  | 0, l => l
  | _ + 1, [] => []
  | f + 1, c :: rest =>
      match matchBr (c :: rest) with
      | some t => '\n' :: brSubF f t
      | none => c :: brSubF f rest

/-- `<br>` substitution with enough fuel. -/
def brSub (l : List Char) : List Char := brSubF (l.length + 1) l

/-- Case-insensitive prefix match: if `pat` (given lowercase) is a prefix of
`s` up to `asciiLower`, return the remainder of `s`. -/
def ciPrefixDrop : List Char → List Char → Option (List Char)
  | [], s => some s
  | _ :: _, [] => none
  | p :: ps, c :: cs => if asciiLower c = p then ciPrefixDrop ps cs else none

/-- Python `pat in s` (substring containment) for a lowercase pattern against
an already-lowercased string can reuse `ciPrefixDrop`; here we only need the
exact variant used on the lowered text. -/
def hasSub (pat : List Char) : List Char → Bool
  | [] => pat.isPrefixOf []
  | c :: rest => pat.isPrefixOf (c :: rest) || hasSub pat rest

/-- Scan for the first case-insensitive occurrence of `pat`, returning the
text before it and the remainder after it (the non-greedy `(.*?)` of the
`<pre>`/`<code>` regexes finds the nearest closing tag). -/
def findCloseCi (pat : List Char) : Nat → List Char → Option (List Char × List Char)
  | 0, _ => none
  | f + 1, s =>
      match ciPrefixDrop pat s with
      | some rest => some ([], rest)
      | none =>
          match s with
          | [] => none
          | c :: cs => (findCloseCi pat f cs).map (fun pr => (c :: pr.1, pr.2))

/-- `re.sub(r'<pre>(.*?)</pre>', <br-normalised group>, text, DOTALL|IGNORECASE)`
(formatting.py lines 42-44): each tagged span is replaced by its content with
`<br>` variants converted to newlines. -/
def preSubF (openTag closeTag : List Char) : Nat → List Char → List Char
  | 0, l => l
  | _ + 1, [] => []
  | f + 1, c :: rest =>
      match ciPrefixDrop openTag (c :: rest) with
      | some afterOpen =>
          match findCloseCi closeTag (afterOpen.length + 1) afterOpen with
          | some pr => brSub pr.1 ++ preSubF openTag closeTag f pr.2
          | none => c :: preSubF openTag closeTag f rest
      | none => c :: preSubF openTag closeTag f rest

/-- `<pre>...</pre>` substitution with enough fuel. -/
def preSub (l : List Char) : List Char :=
  preSubF "<pre>".toList "</pre>".toList (l.length + 1) l

/-- `<code>...</code>` substitution with enough fuel (formatting.py lines
45-47). -/
def codeSub (l : List Char) : List Char :=
  preSubF "<code>".toList "</code>".toList (l.length + 1) l

/-- The `CellFormat` object of formatting.py after `parse()` has run
(identical to the `CellFormat` class of excel.py). -/
structure CellFormat where
  text : List Char
  is_code_block : Bool
  has_newline : Bool
  segments : List TextSegment
  clean_text : List Char
deriving DecidableEq

/-- `CellFormat.parse` of formatting.py (lines 29-55): normalise `<br>`,
record newlines, either treat the whole cell as a code block when a
`<pre>`/`<code>` tag occurs anywhere in the lowered text, or run the
segment scan. -/
def CellFormat.parse (raw : List Char) : CellFormat :=
  if hasSub "<pre>".toList ((brSub raw).map asciiLower)
      || hasSub "<code>".toList ((brSub raw).map asciiLower) then
    { text := raw, is_code_block := true,
      has_newline := (brSub raw).contains '\n',
      segments := [{ text := pyStrip (codeSub (preSub (brSub raw))),
                     bold := false, italic := false, strikethrough := false,
                     is_code := true, hyperlink_url := none }],
      clean_text := pyStrip (codeSub (preSub (brSub raw))) }
  else
    { text := raw, is_code_block := false,
      has_newline := (brSub raw).contains '\n',
      segments := parse_segments (brSub raw) false false false,
      clean_text := ((parse_segments (brSub raw) false false false).map
        TextSegment.text).flatten }

/-- Any fuel exceeding the suffix length makes the scan succeed: every
recursive call (loop step or nested `_parse_segments` call) is on a strictly
shorter suffix. -/
theorem segsGo_total :
    ∀ (fuel : Nat) (s : List Char) (b it st : Bool) (cur : List Char)
      (acc : List TextSegment), s.length < fuel →
      (segsGo fuel s b it st cur acc).isSome = true := by
  intro fuel
  induction fuel with
  | zero => intro s b it st cur acc h; exact absurd h (by omega)
  | succ f ih =>
    intro s b it st cur acc h
    cases s with
    | nil => rfl
    | cons c rest =>
      have hr : rest.length < f := by
        simp only [List.length_cons] at h; omega
      rw [segsGo]
      by_cases h1 : c = '\\' ∧ rest ≠ []
      · rw [if_pos h1]
        exact ih _ _ _ _ _ _ (by
          first
          | omega
          | (simp only [List.length_drop, List.length_take]; omega))
      rw [if_neg h1]
      by_cases h2 : c = btick
      · rw [if_pos h2]
        repeat' split
        all_goals
          first
          | (apply ih
             first
             | omega
             | (simp only [List.length_drop, List.length_take]; omega))
          | (rename_i heq
             rw [← heq]
             apply ih
             first
             | omega
             | (simp only [List.length_drop, List.length_take]; omega))
      rw [if_neg h2]
      by_cases h3 : c = '~' ∧ rest.head? = some '~' ∧ st = false
      · rw [if_pos h3]
        repeat' split
        all_goals
          first
          | (apply ih
             first
             | omega
             | (simp only [List.length_drop, List.length_take]; omega))
          | (rename_i heq
             rw [← heq]
             apply ih
             first
             | omega
             | (simp only [List.length_drop, List.length_take]; omega))
      rw [if_neg h3]
      by_cases h4 : c = '*' ∧ rest.take 2 = ['*', '*'] ∧ b = false ∧ it = false
      · rw [if_pos h4]
        repeat' split
        all_goals
          first
          | (apply ih
             first
             | omega
             | (simp only [List.length_drop, List.length_take]; omega))
          | (rename_i heq
             rw [← heq]
             apply ih
             first
             | omega
             | (simp only [List.length_drop, List.length_take]; omega))
      rw [if_neg h4]
      by_cases h5 : c = '*' ∧ rest.head? = some '*' ∧ b = false
      · rw [if_pos h5]
        repeat' split
        all_goals
          first
          | (apply ih
             first
             | omega
             | (simp only [List.length_drop, List.length_take]; omega))
          | (rename_i heq
             rw [← heq]
             apply ih
             first
             | omega
             | (simp only [List.length_drop, List.length_take]; omega))
      rw [if_neg h5]
      by_cases h6 : c = '_' ∧ rest.take 2 = ['_', '_'] ∧ b = false ∧ it = false
      · rw [if_pos h6]
        repeat' split
        all_goals
          first
          | (apply ih
             first
             | omega
             | (simp only [List.length_drop, List.length_take]; omega))
          | (rename_i heq
             rw [← heq]
             apply ih
             first
             | omega
             | (simp only [List.length_drop, List.length_take]; omega))
      rw [if_neg h6]
      by_cases h7 : c = '_' ∧ rest.head? = some '_' ∧ b = false
      · rw [if_pos h7]
        repeat' split
        all_goals
          first
          | (apply ih
             first
             | omega
             | (simp only [List.length_drop, List.length_take]; omega))
          | (rename_i heq
             rw [← heq]
             apply ih
             first
             | omega
             | (simp only [List.length_drop, List.length_take]; omega))
      rw [if_neg h7]
      by_cases h8 : c = '*' ∧ rest.head? ≠ some '*'
      · rw [if_pos h8]
        repeat' split
        all_goals
          first
          | (apply ih
             first
             | omega
             | (simp only [List.length_drop, List.length_take]; omega))
          | (rename_i heq
             rw [← heq]
             apply ih
             first
             | omega
             | (simp only [List.length_drop, List.length_take]; omega))
      rw [if_neg h8]
      by_cases h9 : c = '_' ∧ rest.head? ≠ some '_'
      · rw [if_pos h9]
        repeat' split
        all_goals
          first
          | (apply ih
             first
             | omega
             | (simp only [List.length_drop, List.length_take]; omega))
          | (rename_i heq
             rw [← heq]
             apply ih
             first
             | omega
             | (simp only [List.length_drop, List.length_take]; omega))
      rw [if_neg h9]
      by_cases h10 : c = '['
      · rw [if_pos h10]
        repeat' split
        all_goals
          first
          | (apply ih
             first
             | omega
             | (simp only [List.length_drop, List.length_take]; omega))
          | (rename_i heq
             rw [← heq]
             apply ih
             first
             | omega
             | (simp only [List.length_drop, List.length_take]; omega))
      rw [if_neg h10]
      exact ih _ _ _ _ _ _ (by omega)


/-- The amended C1 invariant on one segment: a non-code segment is
non-empty. -/
def SegOk (sg : TextSegment) : Prop := sg.is_code = false → sg.text ≠ []

theorem segsOk_nil : ∀ sg ∈ ([] : List TextSegment), SegOk sg := by
  intro sg h; cases h

theorem segsOk_app2 {xs ys : List TextSegment}
    (hx : ∀ sg ∈ xs, SegOk sg) (hy : ∀ sg ∈ ys, SegOk sg) :
    ∀ sg ∈ xs ++ ys, SegOk sg := by
  intro sg hsg
  rcases List.mem_append.mp hsg with h | h
  exacts [hx sg h, hy sg h]

theorem segsOk_app3 {xs ys zs : List TextSegment}
    (hx : ∀ sg ∈ xs, SegOk sg) (hy : ∀ sg ∈ ys, SegOk sg)
    (hz : ∀ sg ∈ zs, SegOk sg) : ∀ sg ∈ xs ++ ys ++ zs, SegOk sg :=
  segsOk_app2 (segsOk_app2 hx hy) hz

theorem flushCur_ok (cur : List Char) (b it st : Bool) :
    ∀ sg ∈ flushCur cur b it st, SegOk sg := by
  intro sg hsg
  unfold flushCur at hsg
  split at hsg
  · cases hsg
  · rename_i hcur
    rcases List.mem_singleton.mp hsg with rfl
    intro _
    simpa using hcur

theorem segsOk_code (t : List Char) :
    ∀ sg ∈ [TextSegment.mk t false false false true none], SegOk sg := by
  intro sg hsg
  rcases List.mem_singleton.mp hsg with rfl
  intro hc
  cases hc

theorem segsOk_mapUrl (u : List Char) {l : List TextSegment}
    (hl : ∀ sg ∈ l, SegOk sg) :
    ∀ sg ∈ l.map (fun sg => { sg with hyperlink_url := some u }), SegOk sg := by
  intro sg hsg
  rcases List.mem_map.mp hsg with ⟨x, hx, rfl⟩
  intro hc
  exact (hl x hx) hc

/-- Every segment ever produced by the scan that is not code-flagged has
non-empty text, provided the incoming accumulator already satisfies this
(empty code segments CAN be produced, e.g. by an empty code span). -/
theorem segsGo_ok :
    ∀ (fuel : Nat) (s : List Char) (b it st : Bool) (cur : List Char)
      (acc segs : List TextSegment),
      segsGo fuel s b it st cur acc = some segs →
      (∀ sg ∈ acc, SegOk sg) →
      ∀ sg ∈ segs, SegOk sg := by
  intro fuel
  induction fuel with
  | zero => intro s b it st cur acc segs heq hacc; cases heq
  | succ f ih =>
    intro s b it st cur acc segs heq hacc
    cases s with
    | nil =>
      rw [segsGo, Option.some.injEq] at heq
      subst heq
      exact segsOk_app2 hacc (flushCur_ok _ _ _ _)
    | cons c rest =>
      rw [segsGo] at heq
      by_cases h1 : c = '\\' ∧ rest ≠ []
      · rw [if_pos h1] at heq
        repeat' split at heq
        all_goals
          first
          | exact Option.noConfusion heq
          | exact ih _ _ _ _ _ _ _ heq hacc
          | (rename_i hseg
             first
             | exact ih _ _ _ _ _ _ _ heq
                 (segsOk_app3 hacc (flushCur_ok _ _ _ _)
                   (ih _ _ _ _ _ _ _ hseg segsOk_nil))
             | exact ih _ _ _ _ _ _ _ heq
                 (segsOk_app3 hacc (flushCur_ok _ _ _ _)
                   (segsOk_mapUrl _ (ih _ _ _ _ _ _ _ hseg segsOk_nil))))
          | exact ih _ _ _ _ _ _ _ heq
              (segsOk_app3 hacc (flushCur_ok _ _ _ _) (segsOk_code _))
      rw [if_neg h1] at heq
      by_cases h2 : c = btick
      · rw [if_pos h2] at heq
        repeat' split at heq
        all_goals
          first
          | exact Option.noConfusion heq
          | exact ih _ _ _ _ _ _ _ heq hacc
          | (rename_i hseg
             first
             | exact ih _ _ _ _ _ _ _ heq
                 (segsOk_app3 hacc (flushCur_ok _ _ _ _)
                   (ih _ _ _ _ _ _ _ hseg segsOk_nil))
             | exact ih _ _ _ _ _ _ _ heq
                 (segsOk_app3 hacc (flushCur_ok _ _ _ _)
                   (segsOk_mapUrl _ (ih _ _ _ _ _ _ _ hseg segsOk_nil))))
          | exact ih _ _ _ _ _ _ _ heq
              (segsOk_app3 hacc (flushCur_ok _ _ _ _) (segsOk_code _))
      rw [if_neg h2] at heq
      by_cases h3 : c = '~' ∧ rest.head? = some '~' ∧ st = false
      · rw [if_pos h3] at heq
        repeat' split at heq
        all_goals
          first
          | exact Option.noConfusion heq
          | exact ih _ _ _ _ _ _ _ heq hacc
          | (rename_i hseg
             first
             | exact ih _ _ _ _ _ _ _ heq
                 (segsOk_app3 hacc (flushCur_ok _ _ _ _)
                   (ih _ _ _ _ _ _ _ hseg segsOk_nil))
             | exact ih _ _ _ _ _ _ _ heq
                 (segsOk_app3 hacc (flushCur_ok _ _ _ _)
                   (segsOk_mapUrl _ (ih _ _ _ _ _ _ _ hseg segsOk_nil))))
          | exact ih _ _ _ _ _ _ _ heq
              (segsOk_app3 hacc (flushCur_ok _ _ _ _) (segsOk_code _))
      rw [if_neg h3] at heq
      by_cases h4 : c = '*' ∧ rest.take 2 = ['*', '*'] ∧ b = false ∧ it = false
      · rw [if_pos h4] at heq
        repeat' split at heq
        all_goals
          first
          | exact Option.noConfusion heq
          | exact ih _ _ _ _ _ _ _ heq hacc
          | (rename_i hseg
             first
             | exact ih _ _ _ _ _ _ _ heq
                 (segsOk_app3 hacc (flushCur_ok _ _ _ _)
                   (ih _ _ _ _ _ _ _ hseg segsOk_nil))
             | exact ih _ _ _ _ _ _ _ heq
                 (segsOk_app3 hacc (flushCur_ok _ _ _ _)
                   (segsOk_mapUrl _ (ih _ _ _ _ _ _ _ hseg segsOk_nil))))
          | exact ih _ _ _ _ _ _ _ heq
              (segsOk_app3 hacc (flushCur_ok _ _ _ _) (segsOk_code _))
      rw [if_neg h4] at heq
      by_cases h5 : c = '*' ∧ rest.head? = some '*' ∧ b = false
      · rw [if_pos h5] at heq
        repeat' split at heq
        all_goals
          first
          | exact Option.noConfusion heq
          | exact ih _ _ _ _ _ _ _ heq hacc
          | (rename_i hseg
             first
             | exact ih _ _ _ _ _ _ _ heq
                 (segsOk_app3 hacc (flushCur_ok _ _ _ _)
                   (ih _ _ _ _ _ _ _ hseg segsOk_nil))
             | exact ih _ _ _ _ _ _ _ heq
                 (segsOk_app3 hacc (flushCur_ok _ _ _ _)
                   (segsOk_mapUrl _ (ih _ _ _ _ _ _ _ hseg segsOk_nil))))
          | exact ih _ _ _ _ _ _ _ heq
              (segsOk_app3 hacc (flushCur_ok _ _ _ _) (segsOk_code _))
      rw [if_neg h5] at heq
      by_cases h6 : c = '_' ∧ rest.take 2 = ['_', '_'] ∧ b = false ∧ it = false
      · rw [if_pos h6] at heq
        repeat' split at heq
        all_goals
          first
          | exact Option.noConfusion heq
          | exact ih _ _ _ _ _ _ _ heq hacc
          | (rename_i hseg
             first
             | exact ih _ _ _ _ _ _ _ heq
                 (segsOk_app3 hacc (flushCur_ok _ _ _ _)
                   (ih _ _ _ _ _ _ _ hseg segsOk_nil))
             | exact ih _ _ _ _ _ _ _ heq
                 (segsOk_app3 hacc (flushCur_ok _ _ _ _)
                   (segsOk_mapUrl _ (ih _ _ _ _ _ _ _ hseg segsOk_nil))))
          | exact ih _ _ _ _ _ _ _ heq
              (segsOk_app3 hacc (flushCur_ok _ _ _ _) (segsOk_code _))
      rw [if_neg h6] at heq
      by_cases h7 : c = '_' ∧ rest.head? = some '_' ∧ b = false
      · rw [if_pos h7] at heq
        repeat' split at heq
        all_goals
          first
          | exact Option.noConfusion heq
          | exact ih _ _ _ _ _ _ _ heq hacc
          | (rename_i hseg
             first
             | exact ih _ _ _ _ _ _ _ heq
                 (segsOk_app3 hacc (flushCur_ok _ _ _ _)
                   (ih _ _ _ _ _ _ _ hseg segsOk_nil))
             | exact ih _ _ _ _ _ _ _ heq
                 (segsOk_app3 hacc (flushCur_ok _ _ _ _)
                   (segsOk_mapUrl _ (ih _ _ _ _ _ _ _ hseg segsOk_nil))))
          | exact ih _ _ _ _ _ _ _ heq
              (segsOk_app3 hacc (flushCur_ok _ _ _ _) (segsOk_code _))
      rw [if_neg h7] at heq
      by_cases h8 : c = '*' ∧ rest.head? ≠ some '*'
      · rw [if_pos h8] at heq
        repeat' split at heq
        all_goals
          first
          | exact Option.noConfusion heq
          | exact ih _ _ _ _ _ _ _ heq hacc
          | (rename_i hseg
             first
             | exact ih _ _ _ _ _ _ _ heq
                 (segsOk_app3 hacc (flushCur_ok _ _ _ _)
                   (ih _ _ _ _ _ _ _ hseg segsOk_nil))
             | exact ih _ _ _ _ _ _ _ heq
                 (segsOk_app3 hacc (flushCur_ok _ _ _ _)
                   (segsOk_mapUrl _ (ih _ _ _ _ _ _ _ hseg segsOk_nil))))
          | exact ih _ _ _ _ _ _ _ heq
              (segsOk_app3 hacc (flushCur_ok _ _ _ _) (segsOk_code _))
      rw [if_neg h8] at heq
      by_cases h9 : c = '_' ∧ rest.head? ≠ some '_'
      · rw [if_pos h9] at heq
        repeat' split at heq
        all_goals
          first
          | exact Option.noConfusion heq
          | exact ih _ _ _ _ _ _ _ heq hacc
          | (rename_i hseg
             first
             | exact ih _ _ _ _ _ _ _ heq
                 (segsOk_app3 hacc (flushCur_ok _ _ _ _)
                   (ih _ _ _ _ _ _ _ hseg segsOk_nil))
             | exact ih _ _ _ _ _ _ _ heq
                 (segsOk_app3 hacc (flushCur_ok _ _ _ _)
                   (segsOk_mapUrl _ (ih _ _ _ _ _ _ _ hseg segsOk_nil))))
          | exact ih _ _ _ _ _ _ _ heq
              (segsOk_app3 hacc (flushCur_ok _ _ _ _) (segsOk_code _))
      rw [if_neg h9] at heq
      by_cases h10 : c = '['
      · rw [if_pos h10] at heq
        repeat' split at heq
        all_goals
          first
          | exact Option.noConfusion heq
          | exact ih _ _ _ _ _ _ _ heq hacc
          | (rename_i hseg
             first
             | exact ih _ _ _ _ _ _ _ heq
                 (segsOk_app3 hacc (flushCur_ok _ _ _ _)
                   (ih _ _ _ _ _ _ _ hseg segsOk_nil))
             | exact ih _ _ _ _ _ _ _ heq
                 (segsOk_app3 hacc (flushCur_ok _ _ _ _)
                   (segsOk_mapUrl _ (ih _ _ _ _ _ _ _ hseg segsOk_nil))))
          | exact ih _ _ _ _ _ _ _ heq
              (segsOk_app3 hacc (flushCur_ok _ _ _ _) (segsOk_code _))
      rw [if_neg h10] at heq
      exact ih _ _ _ _ _ _ _ heq hacc


theorem dropWhile_eq_cons_head_false {p : Char → Bool} :
    ∀ (l : List Char) (c : Char) (t : List Char),
      l.dropWhile p = c :: t → p c = false := by
  intro l
  induction l with
  | nil => intro c t h; cases h
  | cons x xs ih =>
      intro c t h
      rw [List.dropWhile_cons] at h
      split at h
      · exact ih _ _ h
      · rename_i hx
        cases h
        simpa using hx

theorem dropWhile_idem {p : Char → Bool} (l : List Char) :
    (l.dropWhile p).dropWhile p = l.dropWhile p := by
  cases hd : l.dropWhile p with
  | nil => rfl
  | cons c t =>
      rw [List.dropWhile_cons, dropWhile_eq_cons_head_false l c t hd]
      simp

theorem dropRightWs_decomp (l : List Char) :
    ∃ z, l = dropRightWs l ++ z ∧ ∀ c ∈ z, pyIsSpace c = true := by
  refine ⟨(l.reverse.takeWhile pyIsSpace).reverse, ?_, ?_⟩
  · conv_lhs => rw [← l.reverse_reverse, ← List.takeWhile_append_dropWhile (p := pyIsSpace) (l := l.reverse)]
    rw [List.reverse_append]
    rfl
  · intro c hc
    rw [List.mem_reverse] at hc
    exact List.mem_takeWhile_imp hc

theorem dropRightWs_idem (l : List Char) :
    dropRightWs (dropRightWs l) = dropRightWs l := by
  unfold dropRightWs
  rw [List.reverse_reverse, dropWhile_idem]

theorem dropWs_pyStrip (l : List Char) : dropWs (pyStrip l) = pyStrip l := by
  unfold pyStrip
  rcases dropRightWs_decomp (dropWs l) with ⟨z, hz, _⟩
  cases hd : dropRightWs (dropWs l) with
  | nil => rfl
  | cons c t =>
      have hc : pyIsSpace c = false := by
        apply dropWhile_eq_cons_head_false l c (t ++ z)
        show dropWs l = c :: (t ++ z)
        rw [hz, hd]; rfl
      show (c :: t).dropWhile pyIsSpace = c :: t
      rw [List.dropWhile_cons, hc]
      simp

theorem pyStrip_idem (l : List Char) : pyStrip (pyStrip l) = pyStrip l := by
  show dropRightWs (dropWs (pyStrip l)) = pyStrip l
  rw [dropWs_pyStrip]
  show dropRightWs (dropRightWs (dropWs l)) = pyStrip l
  rw [dropRightWs_idem]
  rfl

theorem splitCellsGo_stripped :
    ∀ (line : List Char) (prev : Option Char) (current : List Char)
      (cells : List (List Char)),
      (∀ cell ∈ cells, pyStrip cell = cell) →
      ∀ cell ∈ splitCellsGo line prev current cells, pyStrip cell = cell := by
  intro line
  induction line with
  | nil =>
      intro prev current cells hc cell hcell
      rw [splitCellsGo] at hcell
      split at hcell
      · rcases List.mem_append.mp hcell with h | h
        · exact hc _ h
        · rcases List.mem_singleton.mp h with rfl
          exact pyStrip_idem _
      · exact hc _ hcell
  | cons x xs ih =>
      intro prev current cells hc cell hcell
      rw [splitCellsGo] at hcell
      split at hcell
      · exact ih _ _ _ hc _ hcell
      · split at hcell
        · refine ih _ _ _ ?_ _ hcell
          intro c hmem
          rcases List.mem_append.mp hmem with h | h
          · exact hc _ h
          · rcases List.mem_singleton.mp h with rfl
            exact pyStrip_idem _
        · exact ih _ _ _ hc _ hcell

theorem split_table_cells_stripped (line : List Char) :
    ∀ cell ∈ split_table_cells line, pyStrip cell = cell :=
  splitCellsGo_stripped line none [] [] (by intro c h; cases h)

theorem dropLeadingEmpty_subset (cs : List (List Char)) :
    ∀ x ∈ dropLeadingEmpty cs, x ∈ cs := by
  intro x hx
  cases cs with
  | nil => exact hx
  | cons h t =>
      cases h with
      | nil => exact List.mem_cons_of_mem _ hx
      | cons a as => exact hx

theorem dropTrailingEmpty_subset (cs : List (List Char)) :
    ∀ x ∈ dropTrailingEmpty cs, x ∈ cs := by
  intro x hx
  unfold dropTrailingEmpty at hx
  split at hx
  · rw [List.dropLast_eq_take] at hx
    exact List.take_subset _ _ hx
  · exact hx

theorem trimEdgeCells_subset (cs : List (List Char)) :
    ∀ x ∈ trimEdgeCells cs, x ∈ cs := by
  intro x hx
  exact dropLeadingEmpty_subset _ _ (dropTrailingEmpty_subset _ _ hx)

/-- Row invariant for C10. -/
def RowsOk (r : List (List (List Char))) : Prop :=
  ∀ row ∈ r, row ≠ [] ∧ ∀ cell ∈ row, pyStrip cell = cell

theorem rowsOk_append {r₁ r₂ : List (List (List Char))}
    (h₁ : RowsOk r₁) (h₂ : RowsOk r₂) : RowsOk (r₁ ++ r₂) := by
  intro row hrow
  rcases List.mem_append.mp hrow with h | h
  exacts [h₁ row h, h₂ row h]

theorem tableResult_rowsOk {sf : Bool} {acc r : List (List (List Char))}
    (h : tableResult sf acc = some r) (hacc : RowsOk acc) :
    r ≠ [] ∧ RowsOk r := by
  unfold tableResult at h
  split at h
  · rename_i hcond
    cases h
    exact ⟨hcond.2, hacc⟩
  · cases h

theorem parseLoop_rowsOk :
    ∀ (lines : List (List Char)) (sf : Bool) (acc r : List (List (List Char))),
      parseLoop lines sf acc = some r → RowsOk acc → r ≠ [] ∧ RowsOk r := by
  intro lines
  induction lines with
  | nil => intro sf acc r h hacc; exact tableResult_rowsOk h hacc
  | cons line rest ih =>
      intro sf acc r h hacc
      rw [parseLoop] at h
      split at h
      · exact ih _ _ _ h hacc
      · split at h
        · split at h
          · exact tableResult_rowsOk h hacc
          · cases h
        · split at h
          · exact ih _ _ _ h hacc
          · refine ih _ _ _ h ?_
            split
            · exact hacc
            · rename_i hne
              refine rowsOk_append hacc ?_
              intro row hrow
              rcases List.mem_singleton.mp hrow with rfl
              refine ⟨by simpa using hne, ?_⟩
              intro cell hcell
              exact split_table_cells_stripped _ _ (trimEdgeCells_subset _ _ hcell)

example : split_table_cells "a\\|b|c".toList = ["a|b".toList, "c".toList] := by decide

example : sepMatch "|---|---|".toList = true := by decide

example : sepMatch "|---|".toList = false := by decide

example : sepMatch " :--- | --: ".toList = true := by decide

example :
    parse_markdown_table "| A | B |\n|---|---|\n| 1 | 2 |".toList =
      some [["A".toList, "B".toList], ["1".toList, "2".toList]] := by decide

example :
    parse_segments "**a *b* c**".toList false false false =
      [⟨"a ".toList, true, false, false, false, none⟩,
       ⟨"b".toList, true, true, false, false, none⟩,
       ⟨" c".toList, true, false, false, false, none⟩] := by decide

example :
    parse_segments "*hello".toList false false false =
      [⟨"*hello".toList, false, false, false, false, none⟩] := by decide

example :
    parse_segments "``".toList false false false =
      [⟨[], false, false, false, true, none⟩] := by decide

example :
    parse_segments "`*x*`".toList false false false =
      [⟨"*x*".toList, false, false, false, true, none⟩] := by decide

example :
    parse_segments "[**bold link**](http://x)".toList false false false =
      [⟨"bold link".toList, true, false, false, false, some "http://x".toList⟩] := by decide

example :
    parse_segments "\\*literal\\*".toList false false false =
      [⟨"*literal*".toList, false, false, false, false, none⟩] := by decide

example :
    parse_segments "***x***".toList false false false =
      [⟨"x".toList, true, true, false, false, none⟩] := by decide

example :
    parse_segments "***x**".toList false false false =
      [⟨"*x".toList, true, false, false, false, none⟩] := by decide

example :
    parse_segments "**x".toList false false false =
      [⟨"**x".toList, false, false, false, false, none⟩] := by decide

example :
    parse_segments "*a**b*".toList false false false =
      [⟨"a*".toList, false, true, false, false, none⟩,
       ⟨"b*".toList, false, false, false, false, none⟩] := by decide

example :
    parse_segments "~~x~~".toList false false false =
      [⟨"x".toList, false, false, true, false, none⟩] := by decide

example :
    parse_markdown_table "|a|b|\n|-|-|\n|1|2|\n\nstop".toList =
      some [["a".toList, "b".toList], ["1".toList, "2".toList]] := by decide

example : parse_markdown_table "junk\n|a|b|\n|-|-|".toList = none := by decide

example : parse_markdown_table "|a|b|\n|1|2|".toList = none := by decide

example :
    (CellFormat.parse "<pre>line1<br>line2</pre>".toList).is_code_block = true ∧
    (CellFormat.parse "<pre>line1<br>line2</pre>".toList).has_newline = true ∧
    (CellFormat.parse "<pre>line1<br>line2</pre>".toList).segments =
      [⟨"line1\nline2".toList, false, false, false, true, none⟩] := by decide

example : (CellFormat.parse "a<pre>b</pre>c".toList).is_code_block = true := by decide

example : (CellFormat.parse "a<pre>b</pre>c".toList).clean_text = "abc".toList := by decide

example :
    (CellFormat.parse "hello world".toList).segments =
      [⟨"hello world".toList, false, false, false, false, none⟩] := by decide

/-- C1 (counterexample): the claim says the inline parser never emits an
empty segment, but an empty code span produces a code-flagged segment with
empty text: `parse("``")` emits exactly one segment whose text is empty. -/
theorem C1_counterexample :
    ¬ (∀ sg ∈ (CellFormat.parse "``".toList).segments, sg.text ≠ []) := by
  decide

/-- C1 (amended): every `TextSegment` produced by `CellFormat.parse` that is
not code-flagged has non-empty text; only code segments (empty code spans,
or an empty code block) may be empty. -/
theorem C1_noncode_nonempty (raw : List Char) (sg : TextSegment)
    (hsg : sg ∈ (CellFormat.parse raw).segments) :
    sg.is_code = false → sg.text ≠ [] := by
  unfold CellFormat.parse at hsg
  split at hsg
  · simp only [List.mem_singleton] at hsg
    subst hsg
    intro hc; cases hc
  · unfold parse_segments at hsg
    cases hseq : segsGo ((brSub raw).length + 1) (brSub raw) false false false [] [] with
    | none => rw [hseq] at hsg; cases hsg
    | some segs =>
        rw [hseq] at hsg
        exact segsGo_ok _ _ _ _ _ _ _ _ hseq segsOk_nil sg hsg

/-- Witness for C1's amended theorem at a concrete input. -/
theorem C1_noncode_nonempty_witness : ("x*".toList : List Char) ≠ [] :=
  C1_noncode_nonempty "x*".toList ⟨"x*".toList, false, false, false, false, none⟩
    (by decide) (by decide)

/-- C2 (counterexample): the separator-pattern check runs for EVERY line,
not only the first: in the input below the third line also matches the
separator pattern and is consumed, not appended as the data row
`["---","---"]` the claim predicts (its cell split is shown for contrast). -/
theorem C2_counterexample :
    trimEdgeCells (split_table_cells (pyStrip "|---|---|".toList)) =
      ["---".toList, "---".toList] ∧
    parse_markdown_table "|a|b|\n|---|---|\n|---|---|\n|1|2|".toList =
      some [["a".toList, "b".toList], ["1".toList, "2".toList]] ∧
    ["---".toList, "---".toList] ∉
      [["a".toList, "b".toList], ["1".toList, "2".toList]] := by
  decide

/-- C2 (amended): every qualifying non-blank line matching the separator
pattern is consumed and excluded from the rows (merely setting the flag),
regardless of whether a separator was already found; a qualifying line NOT
matching the pattern is split by the cell splitter and appended (when its
trimmed cell list is non-empty). -/
theorem C2_sep_lines_consumed (line : List Char) (rest : List (List Char))
    (sf : Bool) (acc : List (List (List Char)))
    (hnb : (pyStrip line).isEmpty = false)
    (hq : lineQualifies (pyStrip line) = true) :
    (sepMatch (pyStrip line) = true →
      parseLoop (line :: rest) sf acc = parseLoop rest true acc) ∧
    (sepMatch (pyStrip line) = false →
      parseLoop (line :: rest) sf acc =
        parseLoop rest sf
          (if (trimEdgeCells (split_table_cells (pyStrip line))).isEmpty then acc
           else acc ++ [trimEdgeCells (split_table_cells (pyStrip line))])) := by
  constructor
  · intro hsep
    rw [parseLoop]
    rw [if_neg (by simp [hnb]), if_neg (by simp [hq]), if_pos hsep]
  · intro hsep
    rw [parseLoop]
    rw [if_neg (by simp [hnb]), if_neg (by simp [hq]), if_neg (by simp [hsep])]

/-- Witness for C2's amended theorem: a second separator-like line is
consumed even though the flag is already set. -/
theorem C2_sep_lines_consumed_witness :
    parseLoop ["|---|---|".toList] true [] = parseLoop [] true [] :=
  (C2_sep_lines_consumed "|---|---|".toList [] true [] (by decide) (by decide)).1
    (by decide)

/-- C3 (counterexample): cleanText can retain an unescaped markup delimiter:
the input `*hello` contains no escape at all, yet its cleanText is `*hello`,
which contains the delimiter `*` (the unmatched delimiter degrades to
literal text instead of being stripped). -/
theorem C3_counterexample :
    ('\\' ∉ "*hello".toList) ∧
    ¬ (∀ c ∈ (CellFormat.parse "*hello".toList).clean_text,
        c ∉ ['*', '_', '~', btick]) := by
  decide

/-- C3 (amended): for every parsed CellFormat, cleanText equals the in-order
concatenation of the segment texts (the second half of the claim fails:
unmatched delimiters remain in cleanText as literal text). -/
theorem C3_cleanText_concat (raw : List Char) :
    (CellFormat.parse raw).clean_text =
      ((CellFormat.parse raw).segments.map TextSegment.text).flatten := by
  unfold CellFormat.parse
  split
  · simp
  · rfl

/-- C4: the three-line table round-trips with the separator consumed and the
row before it kept as the first output row. -/
theorem C4_table_roundtrip :
    parse_markdown_table "| A | B |\n|---|---|\n| 1 | 2 |".toList =
      some [["A".toList, "B".toList], ["1".toList, "2".toList]] := by
  decide

/-- C5: the segment scan terminates on every input, ambient state and
accumulator: any fuel exceeding the suffix length yields a result (every
recursive call is on a strictly shorter substring), so `CellFormat.parse`,
which runs the scan with fuel `length + 1`, is total. -/
theorem C5_scan_terminates (s : List Char) (b it st : Bool) (cur : List Char)
    (acc : List TextSegment) (fuel : Nat) (h : s.length < fuel) :
    (segsGo fuel s b it st cur acc).isSome = true :=
  segsGo_total fuel s b it st cur acc h

/-- Witness for C5 at a concrete input. -/
theorem C5_scan_terminates_witness :
    (segsGo 3 "ab".toList false false false [] []).isSome = true :=
  C5_scan_terminates "ab".toList false false false [] [] 3 (by decide)

/-- C7: italic inside an active bold context splits the bold run into three
segments with the stated flags, in order. -/
theorem C7_nesting :
    (CellFormat.parse "**a *b* c**".toList).segments =
      [⟨"a ".toList, true, false, false, false, none⟩,
       ⟨"b".toList, true, true, false, false, none⟩,
       ⟨" c".toList, true, false, false, false, none⟩] := by
  decide

/-- The claim's notion for C8 of "rawText was wholly a `<pre>`/`<code>`
block": the text literally starts with the opening tag and ends with the
matching closing tag. -/
def whollyTaggedBlock (s : List Char) : Bool :=
  ("<pre>".toList.isPrefixOf s && "</pre>".toList.isSuffixOf s) ||
  ("<code>".toList.isPrefixOf s && "</code>".toList.isSuffixOf s)

/-- C8 (counterexample): `is_code_block` is NOT equivalent to the cell being
wholly a `<pre>`/`<code>` block: a cell with surrounding text still sets
`is_code_block = true`, because the code only tests tag containment. -/
theorem C8_counterexample :
    (CellFormat.parse "a<pre>b</pre>c".toList).is_code_block = true ∧
    whollyTaggedBlock "a<pre>b</pre>c".toList = false := by
  decide

/-- C8 (amended): `is_code_block` is true exactly when the `<br>`-normalised,
lowercased text contains `<pre>` or `<code>` anywhere; the claim's concrete
example behaves as stated (one verbatim newline-preserving code segment). -/
theorem C8_code_block :
    (∀ raw : List Char,
      (CellFormat.parse raw).is_code_block =
        (hasSub "<pre>".toList ((brSub raw).map asciiLower) ||
         hasSub "<code>".toList ((brSub raw).map asciiLower))) ∧
    (CellFormat.parse "<pre>line1<br>line2</pre>".toList).is_code_block = true ∧
    (CellFormat.parse "<pre>line1<br>line2</pre>".toList).has_newline = true ∧
    (CellFormat.parse "<pre>line1<br>line2</pre>".toList).segments =
      [⟨"line1\nline2".toList, false, false, false, true, none⟩] := by
  refine ⟨fun raw => ?_, by decide, by decide, by decide⟩
  unfold CellFormat.parse
  split
  · rename_i hc; exact hc.symm
  · rename_i hc
    simp only [Bool.not_eq_true] at hc
    exact hc.symm

/-- C10: whenever the table parser returns a table, the row list is
non-empty, every row is a non-empty list of cells, and every cell is
whitespace-trimmed (equal to its own strip). -/
theorem C10_table_invariants (s : List Char) (r : List (List (List Char)))
    (h : parse_markdown_table s = some r) :
    r ≠ [] ∧ ∀ row ∈ r, row ≠ [] ∧ ∀ cell ∈ row, pyStrip cell = cell := by
  unfold parse_markdown_table at h
  split at h
  · cases h
  · exact parseLoop_rowsOk _ _ _ _ h (by intro row hrow; cases hrow)

/-- Witness for C10 at a concrete input. -/
theorem C10_table_invariants_witness :
    ([["A".toList, "B".toList], ["1".toList, "2".toList]] :
        List (List (List Char))) ≠ [] ∧
    ∀ row ∈ [["A".toList, "B".toList], ["1".toList, "2".toList]],
      row ≠ [] ∧ ∀ cell ∈ row, pyStrip cell = cell :=
  C10_table_invariants "| A | B |\n|---|---|\n| 1 | 2 |".toList _ (by decide)

/-!
The duplicated copies in `services/inserter/excel.py` (lines 11-230 mirror
formatting.py, lines 233-321 mirror parser.py; the source texts are
character-for-character identical).  They are embedded once more below, in
their own namespace, sharing only the language/library primitives
(`str.strip`, `str.find`, the `re` patterns) and the two data classes, which
are field-for-field identical in both files.
-/

namespace ExcelSvc

def splitCellsGo : List Char → Option Char → List Char → List (List Char) → List (List Char)
  | [], _, current, cells =>
      if current ≠ [] ∨ cells ≠ [] then cells ++ [pyStrip current] else cells
  | c :: rest, prev, current, cells =>
      if c = '|' ∧ prev = some '\\' then
        splitCellsGo rest (some c) (current.dropLast ++ ['|']) cells
      else if c = '|' then
        splitCellsGo rest (some c) [] (cells ++ [pyStrip current])
      else
        splitCellsGo rest (some c) (current ++ [c]) cells

def split_table_cells (line : List Char) : List (List Char) :=
  splitCellsGo line none [] []

def dropLeadingEmpty : List (List Char) → List (List Char)
  | [] :: rest => rest
  | cs => cs

def dropTrailingEmpty (cs : List (List Char)) : List (List Char) :=
  if cs.getLast? = some [] then cs.dropLast else cs

def trimEdgeCells (cs : List (List Char)) : List (List Char) :=
  dropTrailingEmpty (dropLeadingEmpty cs)

def lineQualifies (l : List Char) : Bool :=
  (l.head? == some '|') || (l.getLast? == some '|') || l.contains '|'

def tableResult (sepFound : Bool) (acc : List (List (List Char))) :
    Option (List (List (List Char))) :=
  if sepFound = true ∧ acc ≠ [] then some acc else none

def parseLoop : List (List Char) → Bool → List (List (List Char)) →
    Option (List (List (List Char)))
  | [], sepFound, acc => tableResult sepFound acc
  | line :: rest, sepFound, acc =>
      if (pyStrip line).isEmpty then parseLoop rest sepFound acc
      else if lineQualifies (pyStrip line) = false then
        if sepFound = true then tableResult sepFound acc else none
      else if sepMatch (pyStrip line) = true then parseLoop rest true acc
      else
        parseLoop rest sepFound
          (if (trimEdgeCells (split_table_cells (pyStrip line))).isEmpty then acc
           else acc ++ [trimEdgeCells (split_table_cells (pyStrip line))])

def parse_markdown_table (mdText : List Char) :
    Option (List (List (List Char))) :=
  if (splitOnNl (pyStrip mdText)).length < 2 then none
  else parseLoop (splitOnNl (pyStrip mdText)) false []

def flushCur (cur : List Char) (b it st : Bool) : List TextSegment :=
  if cur.isEmpty then []
  else [{ text := cur, bold := b, italic := it, strikethrough := st,
          is_code := false, hyperlink_url := none }]

def segsGo : Nat → List Char → Bool → Bool → Bool → List Char →
    List TextSegment → Option (List TextSegment)
  | 0, _, _, _, _, _, _ => none
  | _ + 1, [], b, it, st, cur, acc => some (acc ++ flushCur cur b it st)
  | f + 1, c :: rest, b, it, st, cur, acc =>
      -- escape: excel.py lines 86-89
      if c = '\\' ∧ rest ≠ [] then
        segsGo f (rest.drop 1) b it st (cur ++ rest.take 1) acc
      -- inline code span: lines 88-96
      else if c = btick then
        match findChar btick rest with
        | some k =>
            segsGo f (rest.drop (k + 1)) b it st []
              (acc ++ flushCur cur b it st ++
                [{ text := rest.take k, bold := false, italic := false,
                   strikethrough := false, is_code := true, hyperlink_url := none }])
        | none => segsGo f rest b it st (cur ++ [c]) acc
      -- strikethrough: lines 99-107
      else if c = '~' ∧ rest.head? = some '~' ∧ st = false then
        match findSub ['~', '~'] (rest.drop 1) with
        | some j =>
            match segsGo f ((rest.drop 1).take j) b it true [] [] with
            | none => none
            | some inner =>
                segsGo f ((rest.drop 1).drop (j + 2)) b it st []
                  (acc ++ flushCur cur b it st ++ inner)
        | none => segsGo f rest b it st (cur ++ [c]) acc
      -- bold+italic ***...***: lines 110-118, falling through to ** on failure
      else if c = '*' ∧ rest.take 2 = ['*', '*'] ∧ b = false ∧ it = false then
        match findSub ['*', '*', '*'] (rest.drop 2) with
        | some j =>
            match segsGo f ((rest.drop 2).take j) true true st [] [] with
            | none => none
            | some inner =>
                segsGo f ((rest.drop 2).drop (j + 3)) b it st []
                  (acc ++ flushCur cur b it st ++ inner)
        | none =>
            match findSub ['*', '*'] (rest.drop 1) with
            | some j =>
                match segsGo f ((rest.drop 1).take j) true it st [] [] with
                | none => none
                | some inner =>
                    segsGo f ((rest.drop 1).drop (j + 2)) b it st []
                      (acc ++ flushCur cur b it st ++ inner)
            | none => segsGo f rest b it st (cur ++ [c]) acc
      -- bold **...**: lines 121-137
      else if c = '*' ∧ rest.head? = some '*' ∧ b = false then
        match findSub ['*', '*'] (rest.drop 1) with
        | some j =>
            match segsGo f ((rest.drop 1).take j) true it st [] [] with
            | none => none
            | some inner =>
                segsGo f ((rest.drop 1).drop (j + 2)) b it st []
                  (acc ++ flushCur cur b it st ++ inner)
        | none => segsGo f rest b it st (cur ++ [c]) acc
      -- bold+italic ___...___: lines 140-148, falling through to __ on failure
      else if c = '_' ∧ rest.take 2 = ['_', '_'] ∧ b = false ∧ it = false then
        match findSub ['_', '_', '_'] (rest.drop 2) with
        | some j =>
            match segsGo f ((rest.drop 2).take j) true true st [] [] with
            | none => none
            | some inner =>
                segsGo f ((rest.drop 2).drop (j + 3)) b it st []
                  (acc ++ flushCur cur b it st ++ inner)
        | none =>
            match findSub ['_', '_'] (rest.drop 1) with
            | some j =>
                match segsGo f ((rest.drop 1).take j) true it st [] [] with
                | none => none
                | some inner =>
                    segsGo f ((rest.drop 1).drop (j + 2)) b it st []
                      (acc ++ flushCur cur b it st ++ inner)
            | none => segsGo f rest b it st (cur ++ [c]) acc
      -- bold __...__: lines 150-165
      else if c = '_' ∧ rest.head? = some '_' ∧ b = false then
        match findSub ['_', '_'] (rest.drop 1) with
        | some j =>
            match segsGo f ((rest.drop 1).take j) true it st [] [] with
            | none => none
            | some inner =>
                segsGo f ((rest.drop 1).drop (j + 2)) b it st []
                  (acc ++ flushCur cur b it st ++ inner)
        | none => segsGo f rest b it st (cur ++ [c]) acc
      -- italic *...*: lines 168-184
      else if c = '*' ∧ rest.head? ≠ some '*' then
        match findSingle '*' rest with
        | some j =>
            match segsGo f (rest.take j) b true st [] [] with
            | none => none
            | some inner =>
                segsGo f (rest.drop (j + 1)) b it st []
                  (acc ++ flushCur cur b it st ++ inner)
        | none => segsGo f rest b it st (cur ++ [c]) acc
      -- italic _..._: lines 186-199
      else if c = '_' ∧ rest.head? ≠ some '_' then
        match findSingle '_' rest with
        | some j =>
            match segsGo f (rest.take j) b true st [] [] with
            | none => none
            | some inner =>
                segsGo f (rest.drop (j + 1)) b it st []
                  (acc ++ flushCur cur b it st ++ inner)
        | none => segsGo f rest b it st (cur ++ [c]) acc
      -- hyperlink [text](url): lines 203-219
      else if c = '[' then
        match findChar ']' rest with
        | some k =>
            if (rest.drop (k + 1)).head? = some '(' then
              match findChar ')' (rest.drop (k + 2)) with
              | some m =>
                  match segsGo f (rest.take k) b it st [] [] with
                  | none => none
                  | some inner =>
                      segsGo f (rest.drop (k + 3 + m)) b it st []
                        (acc ++ flushCur cur b it st ++
                          inner.map (fun sg =>
                            { sg with hyperlink_url := some ((rest.drop (k + 2)).take m) }))
              | none => segsGo f rest b it st (cur ++ [c]) acc
            else segsGo f rest b it st (cur ++ [c]) acc
        | none => segsGo f rest b it st (cur ++ [c]) acc
      -- plain character: lines 222-223
      else segsGo f rest b it st (cur ++ [c]) acc

def parse_segments (t : List Char) (b it st : Bool) : List TextSegment :=
  (segsGo (t.length + 1) t b it st [] []).getD []

def CellFormat.parse (raw : List Char) : CellFormat :=
  if hasSub "<pre>".toList ((brSub raw).map asciiLower)
      || hasSub "<code>".toList ((brSub raw).map asciiLower) then
    { text := raw, is_code_block := true,
      has_newline := (brSub raw).contains '\n',
      segments := [{ text := pyStrip (codeSub (preSub (brSub raw))),
                     bold := false, italic := false, strikethrough := false,
                     is_code := true, hyperlink_url := none }],
      clean_text := pyStrip (codeSub (preSub (brSub raw))) }
  else
    { text := raw, is_code_block := false,
      has_newline := (brSub raw).contains '\n',
      segments := parse_segments (brSub raw) false false false,
      clean_text := ((parse_segments (brSub raw) false false false).map
        TextSegment.text).flatten }

end ExcelSvc

theorem excel_flushCur_eq (cur : List Char) (b it st : Bool) :
    ExcelSvc.flushCur cur b it st = flushCur cur b it st := rfl

theorem excel_splitCellsGo_eq :
    ∀ (line : List Char) (prev : Option Char) (current : List Char)
      (cells : List (List Char)),
      ExcelSvc.splitCellsGo line prev current cells =
        splitCellsGo line prev current cells := by
  intro line
  induction line with
  | nil => intro prev current cells; rfl
  | cons c rest ih =>
      intro prev current cells
      rw [ExcelSvc.splitCellsGo, splitCellsGo]
      split_ifs <;> exact ih _ _ _

theorem excel_split_table_cells_eq (line : List Char) :
    ExcelSvc.split_table_cells line = split_table_cells line := by
  unfold ExcelSvc.split_table_cells split_table_cells
  rw [excel_splitCellsGo_eq]

theorem excel_dropLeadingEmpty_eq (cs : List (List Char)) :
    ExcelSvc.dropLeadingEmpty cs = dropLeadingEmpty cs := by
  cases cs with
  | nil => rfl
  | cons h t => cases h <;> rfl

theorem excel_trimEdgeCells_eq (cs : List (List Char)) :
    ExcelSvc.trimEdgeCells cs = trimEdgeCells cs := by
  unfold ExcelSvc.trimEdgeCells trimEdgeCells
    ExcelSvc.dropTrailingEmpty dropTrailingEmpty
  rw [excel_dropLeadingEmpty_eq]

theorem excel_lineQualifies_eq (l : List Char) :
    ExcelSvc.lineQualifies l = lineQualifies l := rfl

theorem excel_tableResult_eq (sf : Bool) (acc : List (List (List Char))) :
    ExcelSvc.tableResult sf acc = tableResult sf acc := rfl

theorem excel_parseLoop_eq :
    ∀ (lines : List (List Char)) (sf : Bool) (acc : List (List (List Char))),
      ExcelSvc.parseLoop lines sf acc = parseLoop lines sf acc := by
  intro lines
  induction lines with
  | nil => intro sf acc; rfl
  | cons line rest ih =>
      intro sf acc
      rw [ExcelSvc.parseLoop, parseLoop]
      simp only [excel_lineQualifies_eq, excel_split_table_cells_eq,
        excel_trimEdgeCells_eq, excel_tableResult_eq, ih]

theorem excel_segsGo_eq :
    ∀ (fuel : Nat) (s : List Char) (b it st : Bool) (cur : List Char)
      (acc : List TextSegment),
      ExcelSvc.segsGo fuel s b it st cur acc = segsGo fuel s b it st cur acc := by
  intro fuel
  induction fuel with
  | zero => intro s b it st cur acc; rfl
  | succ f ih =>
      intro s b it st cur acc
      cases s with
      | nil => rfl
      | cons c rest =>
          rw [ExcelSvc.segsGo, segsGo]
          simp only [excel_flushCur_eq, ih]

theorem excel_parse_segments_eq (t : List Char) (b it st : Bool) :
    ExcelSvc.parse_segments t b it st = parse_segments t b it st := by
  unfold ExcelSvc.parse_segments parse_segments
  rw [excel_segsGo_eq]

theorem excel_CellFormat_parse_eq (raw : List Char) :
    ExcelSvc.CellFormat.parse raw = CellFormat.parse raw := by
  unfold ExcelSvc.CellFormat.parse CellFormat.parse
  simp only [excel_parse_segments_eq]

theorem excel_parse_markdown_table_eq (s : List Char) :
    ExcelSvc.parse_markdown_table s = parse_markdown_table s := by
  unfold ExcelSvc.parse_markdown_table parse_markdown_table
  rw [excel_parseLoop_eq]

/-- C9: the two duplicated implementations are extensionally equal: the
table parser and the cell-format parser of excel.py agree with those of
parser.py / formatting.py on every input (segments, flags and clean text
included, since the whole parsed CellFormat coincides). -/
theorem C9_duplicates_agree :
    (∀ s : List Char,
      ExcelSvc.parse_markdown_table s = parse_markdown_table s) ∧
    (∀ raw : List Char,
      ExcelSvc.CellFormat.parse raw = CellFormat.parse raw) :=
  ⟨excel_parse_markdown_table_eq, excel_CellFormat_parse_eq⟩

theorem ws_not_sepMark {c : Char} (h : pyIsSpace c = true) : isSepMark c = false := by
  simp only [pyIsSpace, Bool.or_eq_true, beq_iff_eq] at h
  rcases h with ((((h | h) | h) | h) | h) | h <;> subst h <;> decide

theorem allWs_dropWs {w : List Char} (hw : ∀ c ∈ w, pyIsSpace c = true) :
    dropWs w = [] :=
  List.dropWhile_eq_nil_iff.mpr hw

theorem allWs_dropMarks {w : List Char} (hw : ∀ c ∈ w, pyIsSpace c = true) :
    w.dropWhile isSepMark = w := by
  cases w with
  | nil => rfl
  | cons c t =>
      rw [List.dropWhile_cons]
      simp [ws_not_sepMark (hw c (List.mem_cons_self c t))]

theorem dropWs_append_ws {l w : List Char} {c : Char} {t : List Char}
    (hd : dropWs l = c :: t) : dropWs (l ++ w) = c :: (t ++ w) := by
  show (l ++ w).dropWhile pyIsSpace = _
  rw [List.dropWhile_append]
  have h1 : (l.dropWhile pyIsSpace).isEmpty = false := by
    rw [show l.dropWhile pyIsSpace = c :: t from hd]; rfl
  rw [h1]
  simp only [Bool.false_eq_true, if_false]
  rw [show l.dropWhile pyIsSpace = c :: t from hd]
  rfl

theorem dropWs_append_nil {l w : List Char} (hd : dropWs l = [])
    (hw : ∀ c ∈ w, pyIsSpace c = true) : dropWs (l ++ w) = [] := by
  refine List.dropWhile_eq_nil_iff.mpr ?_
  intro x hx
  rcases List.mem_append.mp hx with h | h
  · exact (List.dropWhile_eq_nil_iff.mp hd) x h
  · exact hw x h

theorem dropMarks_append_cons {l w : List Char} {c : Char} {t : List Char}
    (hd : l.dropWhile isSepMark = c :: t) :
    (l ++ w).dropWhile isSepMark = c :: (t ++ w) := by
  rw [List.dropWhile_append]
  have h1 : (l.dropWhile isSepMark).isEmpty = false := by rw [hd]; rfl
  rw [h1]
  simp only [Bool.false_eq_true, if_false]
  rw [hd]
  rfl

/-- Appending trailing whitespace never changes the group matcher (any
fuel): the regex ends in `\s*$`, and whitespace can neither start a group
nor a `[-:]` run. -/
theorem sepTailMore_ws_append :
    ∀ (f : Nat) (l w : List Char), (∀ c ∈ w, pyIsSpace c = true) →
      sepTailMore f (l ++ w) = sepTailMore f l := by
  intro f
  induction f with
  | zero => intro l w hw; rfl
  | succ f ih =>
      intro l w hw
      rw [sepTailMore, sepTailMore]
      cases hd : dropWs l with
      | nil => rw [dropWs_append_nil hd hw]
      | cons c t =>
          simp only [dropWs_append_ws (w := w) hd]
          by_cases hc : c = '|'
          · simp only [if_pos hc]
            cases ht : dropWs t with
            | nil => rw [dropWs_append_nil ht hw]
            | cons d t' =>
                simp only [dropWs_append_ws (w := w) ht]
                by_cases hdm : isSepMark d = true
                · simp only [List.takeWhile_cons, List.dropWhile_cons, hdm, if_true]
                  cases hdw : t'.dropWhile isSepMark with
                  | nil =>
                      have h2 : (t' ++ w).dropWhile isSepMark = w := by
                        rw [List.dropWhile_append, hdw]
                        simp [allWs_dropMarks hw]
                      rw [h2]
                      simpa using ih [] w hw
                  | cons e es =>
                      rw [dropMarks_append_cons (w := w) hdw]
                      rw [show e :: (es ++ w) = (e :: es) ++ w from rfl]
                      exact ih (e :: es) w hw
                · simp only [List.takeWhile_cons, hdm]
                  simp
          · simp only [if_neg hc]

theorem sepTail1_ws_append (f : Nat) (l w : List Char)
    (hw : ∀ c ∈ w, pyIsSpace c = true) :
    sepTail1 f (l ++ w) = sepTail1 f l := by
  rw [sepTail1, sepTail1]
  cases hd : dropWs l with
  | nil => rw [dropWs_append_nil hd hw]
  | cons c t =>
      simp only [dropWs_append_ws (w := w) hd]
      by_cases hc : c = '|'
      · simp only [if_pos hc]
        cases ht : dropWs t with
        | nil => rw [dropWs_append_nil ht hw]
        | cons d t' =>
            simp only [dropWs_append_ws (w := w) ht]
            by_cases hdm : isSepMark d = true
            · simp only [List.takeWhile_cons, List.dropWhile_cons, hdm, if_true]
              cases hdw : t'.dropWhile isSepMark with
              | nil =>
                  have h2 : (t' ++ w).dropWhile isSepMark = w := by
                    rw [List.dropWhile_append, hdw]
                    simp [allWs_dropMarks hw]
                  rw [h2]
                  have h3 : sepTailMore f ([] ++ w) = sepTailMore f [] :=
                    sepTailMore_ws_append f [] w hw
                  simpa using h3
              | cons e es =>
                  rw [dropMarks_append_cons (w := w) hdw]
                  rw [show e :: (es ++ w) = (e :: es) ++ w from rfl]
                  exact sepTailMore_ws_append f (e :: es) w hw
            · simp only [List.takeWhile_cons, hdm]
              simp
      · simp only [if_neg hc]

theorem allWs_takeMarks {w : List Char} (hw : ∀ c ∈ w, pyIsSpace c = true) :
    w.takeWhile isSepMark = [] := by
  cases w with
  | nil => rfl
  | cons c t =>
      rw [List.takeWhile_cons]
      simp [ws_not_sepMark (hw c (List.mem_cons_self c t))]

theorem sepTailMore_fuel :
    ∀ (f₁ f₂ : Nat) (l : List Char), l.length < f₁ → l.length < f₂ →
      sepTailMore f₁ l = sepTailMore f₂ l := by
  intro f₁
  induction f₁ with
  | zero => intro f₂ l h1 h2; exact absurd h1 (by omega)
  | succ f₁ ih =>
      intro f₂ l h1 h2
      cases f₂ with
      | zero => exact absurd h2 (by omega)
      | succ f₂ =>
          rw [sepTailMore, sepTailMore]
          cases hd : dropWs l with
          | nil => rfl
          | cons c t =>
              by_cases hc : c = '|'
              · simp only [if_pos hc]
                cases htk : (dropWs t).takeWhile isSepMark with
                | nil => rfl
                | cons m ms =>
                    have e1 : (dropWs l).length ≤ l.length :=
                      List.Sublist.length_le (List.dropWhile_sublist _)
                    have e2 : ((dropWs t).dropWhile isSepMark).length ≤ (dropWs t).length :=
                      List.Sublist.length_le (List.dropWhile_sublist _)
                    have e3 : (dropWs t).length ≤ t.length :=
                      List.Sublist.length_le (List.dropWhile_sublist _)
                    have e4 : (dropWs l).length = t.length + 1 := by rw [hd]; rfl
                    exact ih f₂ _ (by omega) (by omega)
              · simp only [if_neg hc]

theorem sepTail1_fuel (f₁ f₂ : Nat) (l : List Char) (h1 : l.length < f₁)
    (h2 : l.length < f₂) : sepTail1 f₁ l = sepTail1 f₂ l := by
  rw [sepTail1, sepTail1]
  cases hd : dropWs l with
  | nil => rfl
  | cons c t =>
      by_cases hc : c = '|'
      · simp only [if_pos hc]
        cases htk : (dropWs t).takeWhile isSepMark with
        | nil => rfl
        | cons m ms =>
            have e1 : (dropWs l).length ≤ l.length :=
              List.Sublist.length_le (List.dropWhile_sublist _)
            have e2 : ((dropWs t).dropWhile isSepMark).length ≤ (dropWs t).length :=
              List.Sublist.length_le (List.dropWhile_sublist _)
            have e3 : (dropWs t).length ≤ t.length :=
              List.Sublist.length_le (List.dropWhile_sublist _)
            have e4 : (dropWs l).length = t.length + 1 := by rw [hd]; rfl
            exact sepTailMore_fuel f₁ f₂ _ (by omega) (by omega)
      · simp only [if_neg hc]

theorem afterOptPipe_length (l : List Char) : (afterOptPipe l).length ≤ l.length := by
  unfold afterOptPipe
  cases hd : dropWs l with
  | nil => simp
  | cons c t =>
      have e1 : (dropWs l).length ≤ l.length :=
        List.Sublist.length_le (List.dropWhile_sublist _)
      have e4 : (dropWs l).length = t.length + 1 := by rw [hd]; rfl
      by_cases hc : c = '|'
      · simp only [if_pos hc]
        have e3 : (dropWs t).length ≤ t.length :=
          List.Sublist.length_le (List.dropWhile_sublist _)
        omega
      · simp only [if_neg hc, List.length_cons]
        omega

theorem sepCore_fuel (f₁ f₂ : Nat) (l : List Char) (h1 : l.length < f₁)
    (h2 : l.length < f₂) : sepCore f₁ l = sepCore f₂ l := by
  rw [sepCore, sepCore]
  cases htk : (afterOptPipe l).takeWhile isSepMark with
  | nil => rfl
  | cons m ms =>
      have e1 := afterOptPipe_length l
      have e2 : ((afterOptPipe l).dropWhile isSepMark).length ≤ (afterOptPipe l).length :=
        List.Sublist.length_le (List.dropWhile_sublist _)
      exact sepTail1_fuel f₁ f₂ _ (by omega) (by omega)

theorem afterOptPipe_ws_front {w l : List Char}
    (hw : ∀ c ∈ w, pyIsSpace c = true) :
    afterOptPipe (w ++ l) = afterOptPipe l := by
  unfold afterOptPipe
  rw [show dropWs (w ++ l) = dropWs l from List.dropWhile_append_of_pos hw]

theorem sepCore_ws_front (f : Nat) {w l : List Char}
    (hw : ∀ c ∈ w, pyIsSpace c = true) :
    sepCore f (w ++ l) = sepCore f l := by
  rw [sepCore, sepCore, afterOptPipe_ws_front hw]

theorem afterOptPipe_ws_append {l w : List Char}
    (hw : ∀ c ∈ w, pyIsSpace c = true) :
    afterOptPipe (l ++ w) = afterOptPipe l ++ w ∨
      afterOptPipe (l ++ w) = afterOptPipe l := by
  unfold afterOptPipe
  cases hd : dropWs l with
  | nil =>
      right
      rw [dropWs_append_nil hd hw]
  | cons c t =>
      rw [dropWs_append_ws (w := w) hd]
      by_cases hc : c = '|'
      · simp only [if_pos hc]
        cases ht : dropWs t with
        | nil =>
            right
            rw [dropWs_append_nil ht hw]
        | cons d t' =>
            left
            rw [dropWs_append_ws (w := w) ht]
            rfl
      · simp only [if_neg hc]
        left
        rfl

theorem sepTail1_allWs (f : Nat) {w : List Char}
    (hw : ∀ c ∈ w, pyIsSpace c = true) : sepTail1 f w = false := by
  rw [sepTail1, allWs_dropWs hw]

theorem sepCore_ws_append (f : Nat) {l w : List Char}
    (hw : ∀ c ∈ w, pyIsSpace c = true) :
    sepCore f (l ++ w) = sepCore f l := by
  rcases afterOptPipe_ws_append (l := l) hw with h | h
  · rw [sepCore, sepCore, h]
    cases hx : afterOptPipe l with
    | nil =>
        simp only [List.nil_append]
        rw [allWs_takeMarks hw]
        rfl
    | cons a as =>
        by_cases ham : isSepMark a = true
        · simp only [List.cons_append, List.takeWhile_cons, List.dropWhile_cons,
            ham, if_true]
          cases hdw : as.dropWhile isSepMark with
          | nil =>
              have h2 : (as ++ w).dropWhile isSepMark = w := by
                rw [List.dropWhile_append, hdw]
                simp [allWs_dropMarks hw]
              rw [h2]
              rw [sepTail1_allWs f hw, sepTail1_allWs f (w := []) (by intro c hc; cases hc)]
          | cons e es =>
              rw [dropMarks_append_cons (w := w) hdw]
              rw [show e :: (es ++ w) = (e :: es) ++ w from rfl]
              exact sepTail1_ws_append f (e :: es) w hw
        · simp only [List.cons_append, List.takeWhile_cons, ham]
          simp
  · rw [sepCore, sepCore, h]

theorem length_pyStrip_le (l : List Char) : (pyStrip l).length ≤ l.length := by
  have e1 : (dropWs l).length ≤ l.length :=
    List.Sublist.length_le (List.dropWhile_sublist _)
  have e2 : ((dropWs l).reverse.dropWhile pyIsSpace).length ≤ (dropWs l).reverse.length :=
    List.Sublist.length_le (List.dropWhile_sublist _)
  simp only [List.length_reverse] at e2
  simp only [pyStrip, dropRightWs, List.length_reverse]
  omega

/-- The separator regex ignores surrounding whitespace, so matching a line
and matching its strip agree. -/
theorem sepMatch_pyStrip (l : List Char) : sepMatch (pyStrip l) = sepMatch l := by
  obtain ⟨z, hz, hzw⟩ := dropRightWs_decomp (dropWs l)
  have hta : ∀ c ∈ l.takeWhile pyIsSpace, pyIsSpace c = true :=
    fun c hc => List.mem_takeWhile_imp hc
  have hl : l = l.takeWhile pyIsSpace ++ (pyStrip l ++ z) := by
    conv_lhs => rw [← List.takeWhile_append_dropWhile (p := pyIsSpace) (l := l)]
    show l.takeWhile pyIsSpace ++ dropWs l = _
    rw [hz]
    rfl
  have step : ∀ fuel : Nat, sepCore fuel l = sepCore fuel (pyStrip l) := by
    intro fuel
    conv_lhs => rw [hl]
    rw [sepCore_ws_front _ hta, sepCore_ws_append _ hzw]
  show sepCore ((pyStrip l).length + 1) (pyStrip l) = sepCore (l.length + 1) l
  rw [step]
  exact sepCore_fuel _ _ _ (by omega) (by have := length_pyStrip_le l; omega)

theorem splitOnNl_ne_nil (l : List Char) : splitOnNl l ≠ [] := by
  cases l with
  | nil => simp [splitOnNl]
  | cons c rest =>
      rw [splitOnNl]
      split
      · simp
      · cases h : splitOnNl rest <;> simp

theorem allWs_splitOnNl :
    ∀ {w : List Char}, (∀ c ∈ w, pyIsSpace c = true) →
      ∀ q ∈ splitOnNl w, ∀ c ∈ q, pyIsSpace c = true := by
  intro w
  induction w with
  | nil =>
      intro _ q hq c hc
      simp only [splitOnNl, List.mem_singleton] at hq
      subst hq
      cases hc
  | cons x xs ih =>
      intro hw q hq c hc
      have hx : pyIsSpace x = true := hw x (List.mem_cons_self _ _)
      have hxs : ∀ d ∈ xs, pyIsSpace d = true :=
        fun d hd => hw d (List.mem_cons_of_mem _ hd)
      rw [splitOnNl] at hq
      split at hq
      · rcases List.mem_cons.mp hq with rfl | hq
        · cases hc
        · exact ih hxs q hq c hc
      · cases hsp : splitOnNl xs with
        | nil => exact absurd hsp (splitOnNl_ne_nil xs)
        | cons h t =>
            rw [hsp] at hq
            rcases List.mem_cons.mp hq with rfl | hq
            · rcases List.mem_cons.mp hc with rfl | hc
              · exact hx
              · exact ih hxs h (by rw [hsp]; exact List.mem_cons_self _ _) c hc
            · exact ih hxs q (by rw [hsp]; exact List.mem_cons_of_mem _ hq) c hc

/-- Appending an all-whitespace suffix `w` to `r` leaves every line of `r`
in place except the last, which gains an all-whitespace suffix; any further
lines contributed by `w` are all-whitespace. -/
theorem splitOnNl_append_ws :
    ∀ (r w : List Char), (∀ c ∈ w, pyIsSpace c = true) →
      ∃ pre last wp rest,
        splitOnNl r = pre ++ [last] ∧
        splitOnNl (r ++ w) = pre ++ [last ++ wp] ++ rest ∧
        (∀ c ∈ wp, pyIsSpace c = true) ∧
        (∀ q ∈ rest, ∀ c ∈ q, pyIsSpace c = true) := by
  intro r
  induction r with
  | nil =>
      intro w hw
      cases hsp : splitOnNl w with
      | nil => exact absurd hsp (splitOnNl_ne_nil w)
      | cons h t =>
          refine ⟨[], [], h, t, rfl, by simpa using hsp, ?_, ?_⟩
          · intro c hc
            exact allWs_splitOnNl hw h (by rw [hsp]; exact List.mem_cons_self _ _) c hc
          · intro q hq c hc
            exact allWs_splitOnNl hw q (by rw [hsp]; exact List.mem_cons_of_mem _ hq) c hc
  | cons x r' ih =>
      intro w hw
      obtain ⟨pre, last, wp, rest, h1, h2, h3, h4⟩ := ih w hw
      by_cases hx : x = '\n'
      · subst hx
        refine ⟨[] :: pre, last, wp, rest, ?_, ?_, h3, h4⟩
        · rw [splitOnNl, if_pos rfl, h1]
          rfl
        · show splitOnNl ('\n' :: (r' ++ w)) = _
          rw [splitOnNl, if_pos rfl, h2]
          rfl
      · cases pre with
        | nil =>
            refine ⟨[], x :: last, wp, rest, ?_, ?_, h3, h4⟩
            · rw [splitOnNl, if_neg hx]
              simp [h1]
            · show splitOnNl (x :: (r' ++ w)) = _
              rw [splitOnNl, if_neg hx]
              simp [h2]
        | cons p0 pre1 =>
            refine ⟨(x :: p0) :: pre1, last, wp, rest, ?_, ?_, h3, h4⟩
            · rw [splitOnNl, if_neg hx]
              simp [h1]
            · show splitOnNl (x :: (r' ++ w)) = _
              rw [splitOnNl, if_neg hx]
              simp [h2]

/-- Prepending an all-whitespace prefix `a` to `x` contributes only
all-whitespace lines plus an all-whitespace prefix glued onto the first
line of `x`. -/
theorem splitOnNl_ws_front :
    ∀ (a x : List Char), (∀ c ∈ a, pyIsSpace c = true) →
      ∃ wl wpre h t,
        splitOnNl x = h :: t ∧
        splitOnNl (a ++ x) = wl ++ (wpre ++ h) :: t ∧
        (∀ q ∈ wl, ∀ c ∈ q, pyIsSpace c = true) ∧
        (∀ c ∈ wpre, pyIsSpace c = true) := by
  intro a
  induction a with
  | nil =>
      intro x _
      cases hsp : splitOnNl x with
      | nil => exact absurd hsp (splitOnNl_ne_nil x)
      | cons h t =>
          exact ⟨[], [], h, t, rfl, by simpa using hsp, by simp, by simp⟩
  | cons c a' ih =>
      intro x hall
      have hc : pyIsSpace c = true := hall c (List.mem_cons_self _ _)
      have ha' : ∀ d ∈ a', pyIsSpace d = true :=
        fun d hd => hall d (List.mem_cons_of_mem _ hd)
      obtain ⟨wl, wpre, h, t, h1, h2, h3, h4⟩ := ih x ha'
      by_cases hnl : c = '\n'
      · subst hnl
        refine ⟨[] :: wl, wpre, h, t, h1, ?_, ?_, h4⟩
        · show splitOnNl ('\n' :: (a' ++ x)) = _
          rw [splitOnNl, if_pos rfl, h2]
          rfl
        · intro q hq
          rcases List.mem_cons.mp hq with rfl | hq
          · intro d hd; cases hd
          · exact h3 q hq
      · cases wl with
        | nil =>
            refine ⟨[], c :: wpre, h, t, h1, ?_, by simp, ?_⟩
            · show splitOnNl (c :: (a' ++ x)) = _
              rw [splitOnNl, if_neg hnl]
              simp [h2]
            · intro d hd
              rcases List.mem_cons.mp hd with rfl | hd
              exacts [hc, h4 d hd]
        | cons q0 wl1 =>
            refine ⟨(c :: q0) :: wl1, wpre, h, t, h1, ?_, ?_, h4⟩
            · show splitOnNl (c :: (a' ++ x)) = _
              rw [splitOnNl, if_neg hnl]
              simp [h2]
            · intro q hq
              rcases List.mem_cons.mp hq with rfl | hq
              · intro d hd
                rcases List.mem_cons.mp hd with rfl | hd
                · exact hc
                · exact h3 q0 (List.mem_cons_self _ _) d hd
              · exact h3 q (List.mem_cons_of_mem _ hq)

theorem pyStrip_ws_front {w x : List Char} (hw : ∀ c ∈ w, pyIsSpace c = true) :
    pyStrip (w ++ x) = pyStrip x := by
  show dropRightWs (dropWs (w ++ x)) = dropRightWs (dropWs x)
  rw [show dropWs (w ++ x) = dropWs x from List.dropWhile_append_of_pos hw]

theorem dropRightWs_ws_append {y w : List Char}
    (hw : ∀ c ∈ w, pyIsSpace c = true) : dropRightWs (y ++ w) = dropRightWs y := by
  unfold dropRightWs
  rw [List.reverse_append]
  rw [List.dropWhile_append_of_pos (by
    intro a ha
    exact hw a (List.mem_reverse.mp ha))]

theorem pyStrip_ws_append {x w : List Char}
    (hw : ∀ c ∈ w, pyIsSpace c = true) : pyStrip (x ++ w) = pyStrip x := by
  cases hd : dropWs x with
  | nil =>
      show dropRightWs (dropWs (x ++ w)) = dropRightWs (dropWs x)
      rw [dropWs_append_nil hd hw, hd]
  | cons c t =>
      show dropRightWs (dropWs (x ++ w)) = dropRightWs (dropWs x)
      rw [dropWs_append_ws (w := w) hd, hd]
      rw [show c :: (t ++ w) = (c :: t) ++ w from rfl]
      exact dropRightWs_ws_append hw

theorem allWs_pyStrip {w : List Char} (hw : ∀ c ∈ w, pyIsSpace c = true) :
    pyStrip w = [] := by
  show dropRightWs (dropWs w) = []
  rw [allWs_dropWs hw]
  rfl

/-- The strip decomposition: a string is an all-whitespace prefix, its
strip, and an all-whitespace suffix. -/
theorem strip_decomp (s : List Char) :
    ∃ a z, s = a ++ (pyStrip s ++ z) ∧
      (∀ c ∈ a, pyIsSpace c = true) ∧ (∀ c ∈ z, pyIsSpace c = true) := by
  obtain ⟨z, hz, hzw⟩ := dropRightWs_decomp (dropWs s)
  refine ⟨s.takeWhile pyIsSpace, z, ?_, fun c hc => List.mem_takeWhile_imp hc, hzw⟩
  conv_lhs => rw [← List.takeWhile_append_dropWhile (p := pyIsSpace) (l := s)]
  show s.takeWhile pyIsSpace ++ dropWs s = _
  rw [hz]
  rfl

/-- The per-line stripped, blank-filtered view of a list of lines. -/
def nonBlankStripped (L : List (List Char)) : List (List Char) :=
  (L.map pyStrip).filter (fun p => !p.isEmpty)

theorem nonBlankStripped_append (L₁ L₂ : List (List Char)) :
    nonBlankStripped (L₁ ++ L₂) = nonBlankStripped L₁ ++ nonBlankStripped L₂ := by
  unfold nonBlankStripped
  rw [List.map_append, List.filter_append]

theorem nonBlankStripped_allWs {L : List (List Char)}
    (h : ∀ q ∈ L, ∀ c ∈ q, pyIsSpace c = true) : nonBlankStripped L = [] := by
  induction L with
  | nil => rfl
  | cons q L' ih =>
      unfold nonBlankStripped
      rw [List.map_cons, List.filter_cons]
      rw [show pyStrip q = [] from allWs_pyStrip (h q (List.mem_cons_self _ _))]
      simp only [List.isEmpty_nil, Bool.not_true, Bool.false_eq_true, if_false]
      exact ih (fun q hq => h q (List.mem_cons_of_mem _ hq))

theorem nonBlankStripped_cons_congr {q₁ q₂ : List Char} (L : List (List Char))
    (h : pyStrip q₁ = pyStrip q₂) :
    nonBlankStripped (q₁ :: L) = nonBlankStripped (q₂ :: L) := by
  unfold nonBlankStripped
  rw [List.map_cons, List.map_cons, List.filter_cons, List.filter_cons, h]

/-- Stripping the whole input changes neither the multiset nor the order of
the non-blank stripped lines: the strip only deletes blank edge lines and
edge whitespace that the per-line strip deletes anyway. -/
theorem nonBlankStripped_strip_eq (s : List Char) :
    nonBlankStripped (splitOnNl (pyStrip s)) = nonBlankStripped (splitOnNl s) := by
  obtain ⟨a, z, hdecomp, haw, hzw⟩ := strip_decomp s
  obtain ⟨pre, last, wp, rest, h1, h2, h3, h4⟩ :=
    splitOnNl_append_ws (pyStrip s) z hzw
  obtain ⟨wl, wpre, h, t, p1, p2, p3, p4⟩ :=
    splitOnNl_ws_front a (pyStrip s ++ z) haw
  have e1 : nonBlankStripped (splitOnNl s) =
      nonBlankStripped (splitOnNl (pyStrip s ++ z)) := by
    conv_lhs => rw [hdecomp]
    rw [p2, p1]
    rw [show wl ++ (wpre ++ h) :: t = wl ++ ((wpre ++ h) :: t) from rfl]
    rw [nonBlankStripped_append, nonBlankStripped_allWs p3, List.nil_append]
    exact nonBlankStripped_cons_congr t (pyStrip_ws_front p4)
  have e2 : nonBlankStripped (splitOnNl (pyStrip s ++ z)) =
      nonBlankStripped (splitOnNl (pyStrip s)) := by
    rw [h2, h1]
    rw [nonBlankStripped_append, nonBlankStripped_append,
      nonBlankStripped_allWs h4, List.append_nil]
    rw [show pre ++ [last] = pre ++ [last] from rfl]
    rw [nonBlankStripped_append]
    congr 1
    exact nonBlankStripped_cons_congr [] (pyStrip_ws_append h3)
  rw [e1, e2]

theorem parseLoop_no_sep :
    ∀ (lines : List (List Char)) (acc : List (List (List Char))),
      (∀ l ∈ lines, sepMatch (pyStrip l) = false) →
      parseLoop lines false acc = none := by
  intro lines
  induction lines with
  | nil =>
      intro acc _
      show tableResult false acc = none
      unfold tableResult
      rw [if_neg (by simp)]
  | cons line rest ih =>
      intro acc h
      rw [parseLoop]
      by_cases hb : (pyStrip line).isEmpty = true
      · rw [if_pos hb]
        exact ih _ (fun l hl => h l (List.mem_cons_of_mem _ hl))
      · rw [if_neg hb]
        by_cases hq : lineQualifies (pyStrip line) = false
        · rw [if_pos hq]
          rw [if_neg (by simp)]
        · rw [if_neg hq]
          rw [if_neg (by simp [h line (List.mem_cons_self _ _)])]
          exact ih _ (fun l hl => h l (List.mem_cons_of_mem _ hl))

theorem parseLoop_some_exists :
    ∀ (lines : List (List Char)) (sf : Bool) (acc r : List (List (List Char))),
      parseLoop lines sf acc = some r →
      (sf = true ∨ ∃ l ∈ lines, pyStrip l ≠ [] ∧ sepMatch (pyStrip l) = true) ∧
      (acc ≠ [] ∨ ∃ l ∈ lines, pyStrip l ≠ [] ∧ sepMatch (pyStrip l) = false) := by
  intro lines
  induction lines with
  | nil =>
      intro sf acc r h
      unfold parseLoop tableResult at h
      split at h
      · rename_i hcond
        exact ⟨Or.inl hcond.1, Or.inl hcond.2⟩
      · cases h
  | cons line rest ih =>
      intro sf acc r h
      rw [parseLoop] at h
      by_cases hb : (pyStrip line).isEmpty = true
      · rw [if_pos hb] at h
        obtain ⟨c1, c2⟩ := ih _ _ _ h
        refine ⟨?_, ?_⟩
        · rcases c1 with c1 | ⟨l, hl, hrest⟩
          exacts [Or.inl c1, Or.inr ⟨l, List.mem_cons_of_mem _ hl, hrest⟩]
        · rcases c2 with c2 | ⟨l, hl, hrest⟩
          exacts [Or.inl c2, Or.inr ⟨l, List.mem_cons_of_mem _ hl, hrest⟩]
      · rw [if_neg hb] at h
        have hbne : pyStrip line ≠ [] := by simpa using hb
        by_cases hq : lineQualifies (pyStrip line) = false
        · rw [if_pos hq] at h
          split at h
          · unfold tableResult at h
            split at h
            · rename_i hcond
              exact ⟨Or.inl hcond.1, Or.inl hcond.2⟩
            · cases h
          · cases h
        · rw [if_neg hq] at h
          by_cases hs : sepMatch (pyStrip line) = true
          · rw [if_pos hs] at h
            obtain ⟨_, c2⟩ := ih _ _ _ h
            refine ⟨Or.inr ⟨line, List.mem_cons_self _ _, hbne, hs⟩, ?_⟩
            rcases c2 with c2 | ⟨l, hl, hrest⟩
            exacts [Or.inl c2, Or.inr ⟨l, List.mem_cons_of_mem _ hl, hrest⟩]
          · rw [if_neg hs] at h
            obtain ⟨c1, _⟩ := ih _ _ _ h
            refine ⟨?_, Or.inr ⟨line, List.mem_cons_self _ _, hbne, by simpa using hs⟩⟩
            rcases c1 with c1 | ⟨l, hl, hrest⟩
            exacts [Or.inl c1, Or.inr ⟨l, List.mem_cons_of_mem _ hl, hrest⟩]

theorem two_mem_le_length {α : Type} {x y : α} {L : List α}
    (hx : x ∈ L) (hy : y ∈ L) (hne : x ≠ y) : 2 ≤ L.length := by
  cases L with
  | nil => cases hx
  | cons a l =>
      rcases List.mem_cons.mp hx with rfl | hx'
      · rcases List.mem_cons.mp hy with rfl | hy'
        · exact absurd rfl hne
        · have : 0 < l.length := List.length_pos.mpr (List.ne_nil_of_mem hy')
          simp only [List.length_cons]
          omega
      · have : 0 < l.length := List.length_pos.mpr (List.ne_nil_of_mem hx')
        simp only [List.length_cons]
        omega

theorem mem_nonBlankStripped {lines : List (List Char)} {l : List Char}
    (hl : l ∈ lines) (hne : pyStrip l ≠ []) :
    pyStrip l ∈ nonBlankStripped lines := by
  unfold nonBlankStripped
  refine List.mem_filter.mpr ⟨List.mem_map_of_mem _ hl, ?_⟩
  simpa using hne

theorem of_mem_nonBlankStripped {lines : List (List Char)} {q : List Char}
    (hq : q ∈ nonBlankStripped lines) : ∃ l ∈ lines, pyStrip l = q := by
  unfold nonBlankStripped at hq
  rcases List.mem_map.mp (List.mem_filter.mp hq).1 with ⟨l, hl, rfl⟩
  exact ⟨l, hl, rfl⟩

theorem nonBlankStripped_length (L : List (List Char)) :
    (nonBlankStripped L).length =
      (L.filter (fun l => !(pyStrip l).isEmpty)).length := by
  unfold nonBlankStripped
  rw [List.filter_map]
  rw [List.length_map]
  rfl

/-- C6: an input with fewer than two non-blank lines, or with no line
matching the separator-row pattern, is rejected: `parse_markdown_table`
returns the "no table" sentinel (and, being a total function, never an
exception). -/
theorem C6_no_table (s : List Char)
    (h : ((splitOnNl s).filter (fun l => !(pyStrip l).isEmpty)).length < 2 ∨
         (∀ l ∈ splitOnNl s, sepMatch l = false)) :
    parse_markdown_table s = none := by
  rcases h with hcount | hnosep
  · cases hres : parse_markdown_table s with
    | none => rfl
    | some r =>
        exfalso
        unfold parse_markdown_table at hres
        split at hres
        · cases hres
        · obtain ⟨c1, c2⟩ := parseLoop_some_exists _ _ _ _ hres
          rcases c1 with h1 | ⟨l1, hl1, hne1, hsep1⟩
          · cases h1
          rcases c2 with h2 | ⟨l2, hl2, hne2, hsep2⟩
          · exact h2 rfl
          have m1 := mem_nonBlankStripped hl1 hne1
          have m2 := mem_nonBlankStripped hl2 hne2
          have hlen : 2 ≤ (nonBlankStripped (splitOnNl (pyStrip s))).length :=
            two_mem_le_length m1 m2 (by
              intro hEq
              rw [hEq] at hsep1
              rw [hsep1] at hsep2
              cases hsep2)
          rw [nonBlankStripped_strip_eq, nonBlankStripped_length] at hlen
          omega
  · unfold parse_markdown_table
    split
    · rfl
    · apply parseLoop_no_sep
      intro l hl
      by_cases hb : pyStrip l = []
      · rw [hb]
        decide
      · have hm := mem_nonBlankStripped hl hb
        rw [nonBlankStripped_strip_eq] at hm
        obtain ⟨l2, hl2, heq⟩ := of_mem_nonBlankStripped hm
        rw [← heq, sepMatch_pyStrip]
        exact hnosep l2 hl2

/-- Witness for C6 at a concrete input (a single non-blank line). -/
theorem C6_no_table_witness : parse_markdown_table "hello".toList = none :=
  C6_no_table "hello".toList (Or.inl (by decide))
